import Mathlib

/-!
Verification of the Bamboo filter implementation (`src/main.cpp`, class
`BambooFilter`, together with the repository's second implementation
`MyBambooFilter` from `src/bamboo_filter.{h,cpp}`).

Modelling conventions.

* Keys are opaque byte strings whose only use in the code is through the
  digest `std::hash<std::string>{}(key)`.  Both `idxHash` and `makeFp`
  apply the same hash to the same key, so an operation's behaviour
  depends on the key only through that single 64-bit digest.  The
  embedding therefore works directly with the digest `h : Nat`.  The
  digest never exceeds 2^64 in the C++ code, and no arithmetic in the
  translated functions can overflow a 64-bit machine word
  (`fp * 0x5bd1e995 < 2^48`, all indices are reduced `% cap`), so plain
  `Nat` arithmetic is exact.
* The random victim choice `std::uniform_int_distribution(0, b.size()-1)`
  is modelled by an explicit oracle stream `rs : List Nat`; each draw
  consumes one element and reduces it modulo the bucket size, so every
  behaviour of the RNG corresponds to some oracle and vice versa.
* `float` load factors are modelled as exact rationals (`mkRat size
  (cap*B)` for `float(size_)/float(oldCap_*B_)`); the comparisons in the
  claims are stated over the same exact arithmetic.
* The instrumentation fields (`drops`, `evs`, `started`) record, without
  influencing the computation, which fingerprints a failed cuckoo chain
  or a failed migration drain lost, which fingerprints were displaced by
  an eviction, and whether an expansion was begun.  The claims quantify
  over exactly these events ("never dropped", "expansion begins").
-/

/-- A bucket of the filter: an unordered dynamic container of 16-bit
fingerprints (`std::vector<Fp>`), here fingerprints as `Nat < 2^16`. -/
abbrev Bucket := List Nat

/-- The bucket table `std::vector<std::vector<Fp>>`. -/
abbrev Table := List Bucket

/-- `BambooFilter::makeFp`: the low 16 bits of the digest. -/
def makeFp (h : Nat) : Nat := h % 65536

/-- `BambooFilter::altIndex`: `(i ^ (fp * 0x5bd1e995)) % cap`. -/
def altIndex (i fp cap : Nat) : Nat := (i ^^^ (fp * 0x5bd1e995)) % cap

/-- `BambooFilter::has`: linear scan of bucket `idx` for `fp`; out-of-range
indices answer `false` (the code guards `idx >= arr.size()`). -/
def hasFp (t : Table) (idx fp : Nat) : Bool := (t.getD idx []).contains fp

/-- `BambooFilter::tryPut`: append `fp` to bucket `idx` if it holds fewer
than `B` entries; returns success and the updated table. -/
def tryPut (t : Table) (idx fp B : Nat) : Bool × Table :=
  if (t.getD idx []).length < B then (true, t.set idx (t.getD idx [] ++ [fp])) else (false, t)

/-- One oracle draw for `uniform_int_distribution(0, n-1)`: consume the head
of the stream and reduce it modulo `n`. -/
def draw (rs : List Nat) (n : Nat) : Nat × List Nat :=
  match rs with
  | [] => (0, [])
  | x :: t => (x % n, t)

/-- Result of a cuckoo eviction chain: success flag, updated table, the
fingerprints lost by the chain (the final victim of an exhausted chain),
the victims displaced by the chain's swaps, and the remaining oracle. -/
structure CkRes where
  ok : Bool
  tab : Table
  drops : List Nat
  evs : List Nat
  rest : List Nat
deriving DecidableEq

/-- `BambooFilter::cuckoo` at recursion depth `≥ 1`, with `fuel =
maxEvict - depth`.  The carried fingerprint `fp` is a victim evicted by
the caller; `fuel = 0` is the `depth >= maxEvict_` exit, at which the
carried victim is lost (recorded in `drops`).  Each level swaps `fp` with
a random occupant of bucket `idx` and relocates the occupant. -/
def cuckooRec (B : Nat) : Nat → Table → Nat → Nat → List Nat → CkRes
  | 0, t, _, fp, rs => ⟨false, t, [fp], [], rs⟩
  | fuel + 1, t, idx, fp, rs =>
    let b := t.getD idx []
    if b.isEmpty then ⟨false, t, [fp], [], rs⟩
    else
      let d := draw rs b.length
      let victim := b.getD d.1 0
      let t1 := t.set idx (b.set d.1 fp)
      let alt := altIndex idx victim t1.length
      match tryPut t1 alt victim B with
      | (true, t2) => ⟨true, t2, [], [victim], d.2⟩
      | (false, _) =>
        let res := cuckooRec B fuel t1 alt victim d.2
        { res with evs := victim :: res.evs }

/-- `BambooFilter::cuckoo` called at depth 0 (as `insert` and
`migrateSegment` do).  The depth-0 level is unrolled so that a rejected
incoming fingerprint (which the caller still owns and keeps using) is not
recorded as a loss: `maxEvict = 0` and the empty-bucket exit return the
table untouched with no drop. -/
def cuckoo (B maxE : Nat) (t : Table) (idx fp : Nat) (rs : List Nat) : CkRes :=
  match maxE with
  | 0 => ⟨false, t, [], [], rs⟩
  | m + 1 =>
    let b := t.getD idx []
    if b.isEmpty then ⟨false, t, [], [], rs⟩
    else
      let d := draw rs b.length
      let victim := b.getD d.1 0
      let t1 := t.set idx (b.set d.1 fp)
      let alt := altIndex idx victim t1.length
      match tryPut t1 alt victim B with
      | (true, t2) => ⟨true, t2, [], [victim], d.2⟩
      | (false, _) =>
        let res := cuckooRec B m t1 alt victim d.2
        { res with evs := victim :: res.evs }

/-- The state of a `BambooFilter` (data members of the class):
`old_`, `new_`, `oldCap_`, `newCap_`, `B_`, `loadF_`, `maxEvict_`,
`segSz_`, `expanding_`, `migrateCursor_`, `size_`. -/
structure BambooFilter where
  old : Table
  newT : Table
  oldCap : Nat
  newCap : Nat
  B : Nat
  loadF : ℚ
  maxEvict : Nat
  segSz : Nat
  expanding : Bool
  migrateCursor : Nat
  size : Nat
deriving DecidableEq

/-- The `BambooFilter` constructor: stores the parameters and allocates
`old_` with `cap` empty buckets.  It performs no validation. -/
def BambooFilter.init (cap bucketSz : Nat) (loadFac : ℚ) (maxEvict segSz : Nat) : BambooFilter :=
  ⟨List.replicate cap [], [], cap, 0, bucketSz, loadFac, maxEvict, segSz, false, 0, 0⟩

/-- `BambooFilter::contains`: probe the old table at the primary and
alternate index under `oldCap_`; while expanding also probe the new table
at `i1 % newCap_` and its alternate under `newCap_`. -/
def BambooFilter.contains (s : BambooFilter) (h : Nat) : Bool :=
  let fp := makeFp h
  let i1 := h % s.oldCap
  let i2 := altIndex i1 fp s.oldCap
  if hasFp s.old i1 fp || hasFp s.old i2 fp then true
  else if s.expanding then
    let ni1 := i1 % s.newCap
    let ni2 := altIndex ni1 fp s.newCap
    hasFp s.newT ni1 fp || hasFp s.newT ni2 fp
  else false

/-- `BambooFilter::capacity`: `oldCap_+newCap_` while expanding, else `oldCap_`. -/
def BambooFilter.capacity (s : BambooFilter) : Nat :=
  if s.expanding then s.oldCap + s.newCap else s.oldCap

/-- The load factor `float(size_) / float(oldCap_*B_)` computed at the top
of `maybeExpand`, as an exact rational. -/
def BambooFilter.lf (s : BambooFilter) : ℚ := mkRat s.size (s.oldCap * s.B)

/-- One fingerprint relocation of `migrateSegment`'s inner loop:
`tryPut(new_, b % newCap_, fp) || cuckoo(new_, b % newCap_, fp, 0) ||
cuckoo(new_, altIndex(b % newCap_, fp, newCap_), fp, 0)`.  Returns the new
table, the fingerprints lost (the drained fingerprint itself when all
three arms fail, plus any chain victims), and the remaining oracle. -/
def drainFp (B maxE newCap : Nat) (t : Table) (b fp : Nat) (rs : List Nat) :
    Table × List Nat × List Nat :=
  let i1 := b % newCap
  match tryPut t i1 fp B with
  | (true, t1) => (t1, [], rs)
  | (false, _) =>
    let r1 := cuckoo B maxE t i1 fp rs
    if r1.ok then (r1.tab, r1.drops, r1.rest)
    else
      let r2 := cuckoo B maxE r1.tab (altIndex i1 fp newCap) fp r1.rest
      if r2.ok then (r2.tab, r1.drops ++ r2.drops, r2.rest)
      else (r2.tab, r1.drops ++ r2.drops ++ [fp], r2.rest)

/-- Relocate all fingerprints of one old bucket `b` into the new table, in
order (the `for (Fp fp : old_[migrateCursor_])` loop). -/
def drainFps (B maxE newCap b : Nat) : List Nat → Table → List Nat → Table × List Nat × List Nat
  | [], t, rs => (t, [], rs)
  | fp :: fps, t, rs =>
    let r1 := drainFp B maxE newCap t b fp rs
    let r2 := drainFps B maxE newCap b fps r1.1 r1.2.2
    (r2.1, r1.2.1 ++ r2.2.1, r2.2.2)

/-- Drain `n` consecutive old buckets starting at index `c`: relocate each
bucket's fingerprints into the new table, then clear the bucket (the
`for (; migrateCursor_ < end; ++migrateCursor_)` loop).  Returns the
updated old and new tables, losses, and the remaining oracle. -/
def drainRange (B maxE newCap : Nat) : Nat → Nat → Table → Table → List Nat →
    Table × Table × List Nat × List Nat
  | 0, _, oldT, newT, rs => (oldT, newT, [], rs)
  | n + 1, c, oldT, newT, rs =>
    let r1 := drainFps B maxE newCap c (oldT.getD c []) newT rs
    let r2 := drainRange B maxE newCap n (c + 1) (oldT.set c []) r1.1 r1.2.2
    (r2.1, r2.2.1, r1.2.1 ++ r2.2.2.1, r2.2.2.2)

/-- `BambooFilter::migrateSegment`: drain the segment
`[migrateCursor_, min(migrateCursor_+segSz_, oldCap_))`, then, if the
cursor reached `oldCap_`, finalize the migration (`old_ = move(new_);
oldCap_ = newCap_; new_.clear(); newCap_ = 0; expanding_ = false`). -/
def BambooFilter.migrateSegment (s : BambooFilter) (rs : List Nat) :
    BambooFilter × List Nat × List Nat :=
  let e := min (s.migrateCursor + s.segSz) s.oldCap
  let r := drainRange s.B s.maxEvict s.newCap (e - s.migrateCursor) s.migrateCursor s.old s.newT rs
  let s1 := { s with old := r.1, newT := r.2.1, migrateCursor := e }
  if s1.migrateCursor = s1.oldCap then
    ({ s1 with old := s1.newT, oldCap := s1.newCap, newT := [], newCap := 0, expanding := false },
     r.2.2.1, r.2.2.2)
  else (s1, r.2.2.1, r.2.2.2)

/-- The expansion-start block of `BambooFilter::maybeExpand`:
`newCap_ = oldCap_ * 2; new_.resize(newCap_); expanding_ = true;
migrateCursor_ = 0;` (at this point `new_` is empty, so the resize yields
`2*oldCap_` empty buckets). -/
def BambooFilter.beginExpand (s : BambooFilter) : BambooFilter :=
  { s with newCap := s.oldCap * 2, newT := List.replicate (s.oldCap * 2) [],
           expanding := true, migrateCursor := 0 }

/-- `BambooFilter::maybeExpand`: if not expanding, return unless the load
factor exceeds `loadF_`, else start an expansion; in either remaining
case run one `migrateSegment`.  The `Bool` component records whether an
expansion was begun by this call. -/
def BambooFilter.maybeExpand (s : BambooFilter) (rs : List Nat) :
    BambooFilter × List Nat × Bool × List Nat :=
  if s.expanding then
    let r := s.migrateSegment rs
    (r.1, r.2.1, false, r.2.2)
  else if s.lf ≤ s.loadF then (s, [], false, rs)
  else
    let r := s.beginExpand.migrateSegment rs
    (r.1, r.2.1, true, r.2.2)

/-- The placement phase of `BambooFilter::insert` (everything after
`maybeExpand()`): try `tryPut`/`cuckoo` at the primary index, then at the
alternate; each success increments `size_`.  Returns the success flag,
the state, the fingerprints lost, the old-table eviction victims, and the
remaining oracle.  Note that a failed cuckoo chain leaves its partial
swaps in the table. -/
def BambooFilter.place (s : BambooFilter) (h : Nat) (rs : List Nat) :
    Bool × BambooFilter × List Nat × List Nat × List Nat :=
  let fp := makeFp h
  let i1 := h % s.oldCap
  match tryPut s.old i1 fp s.B with
  | (true, t1) => (true, { s with old := t1, size := s.size + 1 }, [], [], rs)
  | (false, _) =>
    let r1 := cuckoo s.B s.maxEvict s.old i1 fp rs
    if r1.ok then (true, { s with old := r1.tab, size := s.size + 1 }, r1.drops, r1.evs, r1.rest)
    else
      let i2 := altIndex i1 fp s.oldCap
      match tryPut r1.tab i2 fp s.B with
      | (true, t2) =>
        (true, { s with old := t2, size := s.size + 1 }, r1.drops, r1.evs, r1.rest)
      | (false, _) =>
        let r2 := cuckoo s.B s.maxEvict r1.tab i2 fp r1.rest
        if r2.ok then
          (true, { s with old := r2.tab, size := s.size + 1 },
           r1.drops ++ r2.drops, r1.evs ++ r2.evs, r2.rest)
        else
          (false, { s with old := r2.tab }, r1.drops ++ r2.drops, r1.evs ++ r2.evs, r2.rest)

/-- The per-insert instrumentation record: fingerprints lost during the
call, old-table eviction victims of the placement phase, and whether the
call began an expansion. -/
structure StepLog where
  drops : List Nat
  evOld : List Nat
  started : Bool
deriving DecidableEq

/-- `BambooFilter::insert`: dedupe via `contains`, then `maybeExpand()`,
then the placement phase.  Returns the result (`true` = ok, `false` =
overflow), the new state, the step log, and the remaining oracle. -/
def BambooFilter.insert (s : BambooFilter) (h : Nat) (rs : List Nat) :
    Bool × BambooFilter × StepLog × List Nat :=
  if s.contains h then (true, s, ⟨[], [], false⟩, rs)
  else
    let m := s.maybeExpand rs
    let p := m.1.place h m.2.2.2
    (p.1, p.2.1, ⟨m.2.1 ++ p.2.2.1, p.2.2.2.1, m.2.2.1⟩, p.2.2.2.2)

/-- `BambooFilter::contains` as the method it is in the source (a member
function that receives and may return the object's state): the body
contains no assignment to any data member, so the state component of the
result is the receiver unchanged. -/
def BambooFilter.containsM (s : BambooFilter) (h : Nat) : Bool × BambooFilter :=
  let fp := makeFp h
  let i1 := h % s.oldCap
  let i2 := altIndex i1 fp s.oldCap
  if hasFp s.old i1 fp || hasFp s.old i2 fp then (true, s)
  else if s.expanding then
    let ni1 := i1 % s.newCap
    let ni2 := altIndex ni1 fp s.newCap
    (hasFp s.newT ni1 fp || hasFp s.newT ni2 fp, s)
  else (false, s)

/-- Run a sequence of insert calls; each element provides the digest and
the oracle for that call. -/
def runSteps : BambooFilter → List (Nat × List Nat) → BambooFilter
  | s, [] => s
  | s, (h, rs) :: ops => runSteps (s.insert h rs).2.1 ops

/-- Trace condition for the steady-state no-false-negative theorem: before
every step the filter is not expanding, the step does not begin an
expansion, and the tracked fingerprint `f` is not lost by the step. -/
def steadyOkFrom (f : Nat) : BambooFilter → List (Nat × List Nat) → Bool
  | _, [] => true
  | s, (h, rs) :: ops =>
    let r := s.insert h rs
    !s.expanding && !r.2.2.1.started && !(r.2.2.1.drops.contains f) &&
      steadyOkFrom f r.2.1 ops

/-- Trace condition for the migration-window theorem: every step starts
and ends with the filter expanding (the migration stays in progress), and
the tracked fingerprint `f` is neither lost by the step nor displaced by
an old-table eviction. -/
def expandOkFrom (f : Nat) : BambooFilter → List (Nat × List Nat) → Bool
  | _, [] => true
  | s, (h, rs) :: ops =>
    let r := s.insert h rs
    s.expanding && r.2.1.expanding && !(r.2.2.1.drops.contains f) &&
      !(r.2.2.1.evOld.contains f) && expandOkFrom f r.2.1 ops

/-- Structural well-formedness of a filter state: the old table has
`oldCap_` buckets, capacity and bucket size are positive (a zero
`oldCap_` makes the C++ `% oldCap_` undefined and a zero `B_` makes the
load factor a float division by zero), and while expanding the new table
has `newCap_ = 2*oldCap_` buckets and the cursor is strictly inside the
old table. -/
def WF (s : BambooFilter) : Prop :=
  s.old.length = s.oldCap ∧ 1 ≤ s.oldCap ∧ 1 ≤ s.B ∧
    (s.expanding = true →
      s.newT.length = s.newCap ∧ s.newCap = 2 * s.oldCap ∧ s.migrateCursor < s.oldCap)

/-- States reachable from a construction with positive capacity and
bucket size through any sequence of `insert` calls (`contains` does not
change the state, see `containsM`). -/
inductive Reach : BambooFilter → Prop
  | init (cap bucketSz : Nat) (loadFac : ℚ) (maxE segSz : Nat)
      (hc : 1 ≤ cap) (hB : 1 ≤ bucketSz) :
      Reach (BambooFilter.init cap bucketSz loadFac maxE segSz)
  | step (s : BambooFilter) (h : Nat) (rs : List Nat) : Reach s → Reach (s.insert h rs).2.1

/-- State of the repository's second implementation, `MyBambooFilter`
(`src/bamboo_filter.h`): each slot stores the 16-bit fingerprint together
with the full 64-bit hash. -/
structure MyBambooFilter where
  table : List (List (Nat × Nat))
  num_buckets : Nat
  slots_per_bucket : Nat
  max_load_factor : ℚ
  max_cuckoo_kicks : Nat
  current_items_count : Nat
deriving DecidableEq

/-- `MyBambooFilter::alt_index_from_fp_val`:
`(primary_idx ^ fp * 0x5bd1e995ULL) % num_buckets_param`. -/
def MyBambooFilter.alt_index_from_fp_val (primary_idx fp num_buckets_param : Nat) : Nat :=
  (primary_idx ^^^ (fp * 0x5bd1e995)) % num_buckets_param

/-- The `MyBambooFilter` constructor: throws `std::invalid_argument`
exactly when `num_buckets_ == 0 || slots_per_bucket_ == 0`; otherwise
creates the filter with `num_buckets_` empty buckets.  No other
parameter is validated. -/
def mkMyBambooFilter (initial_num_buckets slots_per_bucket : Nat)
    (load_factor_threshold : ℚ) (max_cuckoo_kicks : Nat) : Except String MyBambooFilter :=
  if initial_num_buckets == 0 || slots_per_bucket == 0 then
    Except.error "Number of buckets and slots per bucket must be greater than 0."
  else
    Except.ok ⟨List.replicate initial_num_buckets [], initial_num_buckets, slots_per_bucket,
      load_factor_threshold, max_cuckoo_kicks, 0⟩

/-- XOR with a fixed mask followed by reduction modulo a power of two is
an involution on `[0, 2^k)`. -/
theorem xor_mod_two_pow_invol (i m k : Nat) (hi : i < 2 ^ k) :
    (((i ^^^ m) % 2 ^ k) ^^^ m) % 2 ^ k = i := by
  apply Nat.eq_of_testBit_eq
  intro j
  rcases lt_or_ge j k with hj | hj
  · simp [Nat.testBit_mod_two_pow, Nat.testBit_xor, hj, Bool.xor_assoc]
  · have h1 : Nat.testBit i j = false :=
      Nat.testBit_eq_false_of_lt (lt_of_lt_of_le hi (Nat.pow_le_pow_right (by norm_num) hj))
    simp [Nat.testBit_mod_two_pow, Nat.testBit_xor, Nat.not_lt.mpr hj, h1]

/-- C4: for every bucket count `C` that is a power of two, every index
`i < C` and every 16-bit fingerprint `fp`, applying the alternate-index
function twice returns the original index — both for
`BambooFilter::altIndex` and for `MyBambooFilter::alt_index_from_fp_val`
(the two implementations compute the same function). -/
theorem altIndex_involutive (C i fp k : Nat) (hC : C = 2 ^ k) (hi : i < C)
    (hfp : fp < 65536) :
    altIndex (altIndex i fp C) fp C = i ∧
      MyBambooFilter.alt_index_from_fp_val
        (MyBambooFilter.alt_index_from_fp_val i fp C) fp C = i := by
  subst hC
  constructor
  · exact xor_mod_two_pow_invol i (fp * 0x5bd1e995) k hi
  · exact xor_mod_two_pow_invol i (fp * 0x5bd1e995) k hi

/-- Witness for `altIndex_involutive` at `C = 1024 = 2^10`, `i = 37`,
`fp = 1234`. -/
theorem altIndex_involutive_witness :
    1024 = 2 ^ 10 ∧ 37 < 1024 ∧ 1234 < 65536 ∧
      (altIndex (altIndex 37 1234 1024) 1234 1024 = 37 ∧
        MyBambooFilter.alt_index_from_fp_val
          (MyBambooFilter.alt_index_from_fp_val 37 1234 1024) 1234 1024 = 37) :=
  ⟨rfl, by decide, by decide, altIndex_involutive 1024 37 1234 10 rfl (by decide) (by decide)⟩

/-- C8 counterexample: a `load_factor_threshold` of `2` lies outside
`(0,1]`, yet `MyBambooFilter` construction succeeds — the constructor
never validates the threshold; and the `BambooFilter` constructor creates
a filter even for zero capacity and zero bucket size — it validates
nothing at all. -/
theorem construction_no_threshold_check :
    (mkMyBambooFilter 16 4 (mkRat 2 1) 500).isOk = true ∧
      (BambooFilter.init 0 0 (mkRat 2 1) 0 0).oldCap = 0 := by decide

/-- C8 amended: `MyBambooFilter` construction fails exactly when the
initial bucket count or the slots-per-bucket count is zero; the load
threshold and kick bound are never validated, and the `BambooFilter`
constructor performs no validation at all (it always produces a filter
whose old table has the requested number of buckets). -/
theorem construction_validation (b s : Nat) (lfq : ℚ) (k : Nat)
    (cap bucketSz : Nat) (lfq2 : ℚ) (maxE segSz : Nat) :
    (mkMyBambooFilter b s lfq k).isOk = (!(b == 0) && !(s == 0)) ∧
      (BambooFilter.init cap bucketSz lfq2 maxE segSz).old.length = cap := by
  constructor
  · unfold mkMyBambooFilter
    split <;> simp_all [Except.isOk, Except.toBool] <;> tauto
  · simp [BambooFilter.init]

/-- C10: `contains` is observationally pure — run as the member function
it is in the source, it leaves every component of the filter state
unchanged (in particular it never advances the migration), and its
boolean result is the deterministic function `BambooFilter.contains` of
the key and the current state. -/
theorem contains_observationally_pure (s : BambooFilter) (h : Nat) :
    s.containsM h = (s.contains h, s) := by
  simp only [BambooFilter.containsM, BambooFilter.contains]
  split_ifs <;> rfl

/-- Intermediate states of the C1 counterexample trace: capacity 4, one
slot per bucket, threshold 2/5, `maxEvict = 0`, segment size 1; digests
1, 9, 2 inserted in order. -/
def c1A : BambooFilter := ((BambooFilter.init 4 1 (mkRat 4 10) 0 1).insert 1 []).2.1

/-- Result of inserting digest 9 into `c1A` (the key whose fingerprint the
migration then makes invisible). -/
def c1B : Bool × BambooFilter × StepLog × List Nat := c1A.insert 9 []

/-- Result of the subsequent insert of digest 2, which starts the
expansion and drains old bucket 0 — the bucket holding 9's fingerprint at
its alternate index. -/
def c1C : Bool × BambooFilter × StepLog × List Nat := c1B.2.1.insert 2 []

/-- C1 counterexample: digest 9's insert returned ok, no step dropped any
fingerprint, yet after the expansion has started `contains 9` is false:
the fingerprint was drained from the key's alternate bucket 0 to new
bucket 0, while the query probes new buckets 1 and 4. -/
theorem insert_ok_later_contains_false :
    c1B.1 = true ∧ c1B.2.2.1.drops = [] ∧ c1C.2.2.1.drops = [] ∧
      c1C.2.1.contains 9 = false := by decide

/-- Intermediate state of the C2 counterexample trace (same construction
as the C1 trace, duplicated so the two refutations stand alone). -/
def c2A : BambooFilter := ((BambooFilter.init 4 1 (mkRat 4 10) 0 1).insert 1 []).2.1

/-- Insert of digest 9 before any migration begins. -/
def c2B : Bool × BambooFilter × StepLog × List Nat := c2A.insert 9 []

/-- The next insert, which begins the expansion and performs its first
drain step. -/
def c2C : Bool × BambooFilter × StepLog × List Nat := c2B.2.1.insert 2 []

/-- C2 counterexample: digest 9 was inserted successfully before the
migration started (`c2B.2.1` is not yet expanding) and was not dropped by
any drain step, yet at the intermediate migration state (cursor 1 of 4,
still expanding) `contains 9` already returns false. -/
theorem migration_intermediate_contains_false :
    c2B.1 = true ∧ c2B.2.1.expanding = false ∧ c2C.2.2.1.drops = [] ∧
      c2C.2.1.expanding = true ∧ c2C.2.1.migrateCursor = 1 ∧
      c2C.2.1.contains 9 = false := by decide

/-- State for the C3 counterexample: capacity 1, one slot, threshold 1,
`maxEvict = 1`, segment size 1, with digest 5 already inserted. -/
def c3A : BambooFilter := ((BambooFilter.init 1 1 1 1 1).insert 5 []).2.1

/-- Result of inserting digest 7 into the full one-bucket filter: all four
placement attempts fail. -/
def c3R : Bool × BambooFilter × StepLog × List Nat := c3A.insert 7 [0, 0]

/-- C3 counterexample: all four placement attempts for digest 7 fail —
the insert returns overflow and `size` is not incremented — but the table
contents are NOT unchanged: the failed eviction chain replaced the stored
fingerprint 5 with 7 (the expansion state is untouched, so the change is
entirely the placement phase's). -/
theorem overflow_mutates_table :
    c3R.1 = false ∧ c3R.2.1.size = c3A.size ∧ (c3A.maybeExpand [0, 0]).1 = c3A ∧
      c3A.old = [[5]] ∧ c3R.2.1.old = [[7]] := by decide

/-- Start state of the C9 counterexample: capacity 8, one slot per
bucket, threshold 3/10, `maxEvict = 0`, segment size 4; digests 11, 3, 5
inserted in order (3's fingerprint sits at its alternate bucket 4). -/
def c9S : BambooFilter :=
  runSteps (BambooFilter.init 8 1 (mkRat 3 10) 0 4) [(11, []), (3, []), (5, [])]

/-- The filter after a single `insert 13` (which overflows after starting
the expansion). -/
def c9Once : BambooFilter := (c9S.insert 13 []).2.1

/-- The filter after `insert 13` twice: the second call advances and
completes the migration. -/
def c9Twice : BambooFilter := ((c9S.insert 13 []).2.1.insert 13 []).2.1

/-- C9 counterexample: `insert 13; insert 13` is not observationally
identical to a single `insert 13` — after the single insert the earlier
key 3 is still visible, after the double insert the second call's
migration work makes `contains 3` false. -/
theorem double_insert_observably_differs :
    (c9S.insert 13 []).1 = false ∧ c9Once.contains 3 = true ∧
      c9Twice.contains 3 = false := by decide

/-- `tryPut` never changes the number of buckets. -/
theorem tryPut_length (t : Table) (idx fp B : Nat) : (tryPut t idx fp B).2.length = t.length := by
  unfold tryPut
  split <;> simp

/-- Destructured form of `tryPut_length`. -/
theorem tryPut_length_eq (t : Table) (idx fp B : Nat) (ok : Bool) (t2 : Table)
    (heq : tryPut t idx fp B = (ok, t2)) : t2.length = t.length := by
  have h1 := tryPut_length t idx fp B
  rw [heq] at h1
  exact h1

/-- A cuckoo chain never changes the number of buckets. -/
theorem cuckooRec_length (B fuel : Nat) (t : Table) (idx fp : Nat) (rs : List Nat) :
    (cuckooRec B fuel t idx fp rs).tab.length = t.length := by
  induction fuel generalizing t idx fp rs with
  | zero => rfl
  | succ n ih =>
    simp only [cuckooRec]
    split
    · rfl
    · split
      · next t2 heq => simp [tryPut_length_eq _ _ _ _ _ _ heq]
      · simp [ih]

/-- A depth-0 cuckoo call never changes the number of buckets. -/
theorem cuckoo_length (B maxE : Nat) (t : Table) (idx fp : Nat) (rs : List Nat) :
    (cuckoo B maxE t idx fp rs).tab.length = t.length := by
  cases maxE with
  | zero => rfl
  | succ m =>
    simp only [cuckoo]
    split
    · rfl
    · split
      · next t2 heq => simp [tryPut_length_eq _ _ _ _ _ _ heq]
      · simp [cuckooRec_length]

/-- A single drain relocation never changes the number of new-table buckets. -/
theorem drainFp_length (B maxE newCap : Nat) (t : Table) (b fp : Nat) (rs : List Nat) :
    (drainFp B maxE newCap t b fp rs).1.length = t.length := by
  simp only [drainFp]
  split
  · next t1 heq => exact tryPut_length_eq _ _ _ _ _ _ heq
  · split
    · simp [cuckoo_length]
    · split <;> simp [cuckoo_length]

/-- Draining a bucket's fingerprint list never changes the number of
new-table buckets. -/
theorem drainFps_length (B maxE newCap b : Nat) (fps : List Nat) (t : Table) (rs : List Nat) :
    (drainFps B maxE newCap b fps t rs).1.length = t.length := by
  induction fps generalizing t rs with
  | nil => rfl
  | cons fp fps ih =>
    simp only [drainFps]
    rw [ih, drainFp_length]

/-- `drainRange` preserves the length of the old table. -/
theorem drainRange_old_length (B maxE newCap n c : Nat) (oldT newT : Table) (rs : List Nat) :
    (drainRange B maxE newCap n c oldT newT rs).1.length = oldT.length := by
  induction n generalizing c oldT newT rs with
  | zero => rfl
  | succ m ih =>
    simp only [drainRange]
    rw [ih]
    simp

/-- `drainRange` preserves the length of the new table. -/
theorem drainRange_new_length (B maxE newCap n c : Nat) (oldT newT : Table) (rs : List Nat) :
    (drainRange B maxE newCap n c oldT newT rs).2.1.length = newT.length := by
  induction n generalizing c oldT newT rs with
  | zero => rfl
  | succ m ih =>
    simp only [drainRange]
    rw [ih, drainFps_length]

/-- The placement phase changes only `old_` and `size_`. -/
theorem place_frame (s : BambooFilter) (h : Nat) (rs : List Nat) :
    (s.place h rs).2.1.newT = s.newT ∧ (s.place h rs).2.1.oldCap = s.oldCap ∧
      (s.place h rs).2.1.newCap = s.newCap ∧ (s.place h rs).2.1.B = s.B ∧
      (s.place h rs).2.1.loadF = s.loadF ∧ (s.place h rs).2.1.maxEvict = s.maxEvict ∧
      (s.place h rs).2.1.segSz = s.segSz ∧ (s.place h rs).2.1.expanding = s.expanding ∧
      (s.place h rs).2.1.migrateCursor = s.migrateCursor := by
  simp only [BambooFilter.place]
  split
  · simp
  · split
    · simp
    · split
      · simp
      · split <;> simp

/-- The placement phase preserves the length of the old table. -/
theorem place_old_length (s : BambooFilter) (h : Nat) (rs : List Nat) :
    (s.place h rs).2.1.old.length = s.old.length := by
  simp only [BambooFilter.place]
  split
  · next t1 heq => simp [tryPut_length_eq _ _ _ _ _ _ heq]
  · split
    · simp [cuckoo_length]
    · split
      · next t2 heq =>
        rw [tryPut_length_eq _ _ _ _ _ _ heq, cuckoo_length]
      · split <;> simp [cuckoo_length]

/-- `migrateSegment` changes neither the configuration fields nor `size_`. -/
theorem migrateSegment_frame (s : BambooFilter) (rs : List Nat) :
    (s.migrateSegment rs).1.B = s.B ∧ (s.migrateSegment rs).1.loadF = s.loadF ∧
      (s.migrateSegment rs).1.maxEvict = s.maxEvict ∧
      (s.migrateSegment rs).1.segSz = s.segSz ∧ (s.migrateSegment rs).1.size = s.size := by
  simp only [BambooFilter.migrateSegment]
  split <;> simp

/-- When the filter is steady and the load factor does not exceed the
threshold, `maybeExpand` does nothing. -/
theorem maybeExpand_steady (s : BambooFilter) (rs : List Nat) (he : s.expanding = false)
    (hl : s.lf ≤ s.loadF) : s.maybeExpand rs = (s, [], false, rs) := by
  simp [BambooFilter.maybeExpand, he, hl]

/-- `maybeExpand` changes neither the configuration fields nor `size_`. -/
theorem maybeExpand_frame (s : BambooFilter) (rs : List Nat) :
    (s.maybeExpand rs).1.B = s.B ∧ (s.maybeExpand rs).1.loadF = s.loadF ∧
      (s.maybeExpand rs).1.maxEvict = s.maxEvict ∧
      (s.maybeExpand rs).1.segSz = s.segSz ∧ (s.maybeExpand rs).1.size = s.size := by
  simp only [BambooFilter.maybeExpand]
  split_ifs with h1 h2
  · exact migrateSegment_frame s rs
  · simp
  · have hfr := migrateSegment_frame s.beginExpand rs
    simpa [BambooFilter.beginExpand] using hfr

/-- The expansion-start block yields a well-formed expanding state. -/
theorem wf_beginExpand (s : BambooFilter) (hwf : WF s) (he : s.expanding = false) :
    WF s.beginExpand := by
  obtain ⟨h1, h2, h3, _⟩ := hwf
  refine ⟨h1, h2, h3, ?_⟩
  intro _
  refine ⟨by simp [BambooFilter.beginExpand], by simp [BambooFilter.beginExpand, Nat.mul_comm], ?_⟩
  simpa [BambooFilter.beginExpand] using h2

/-- `migrateSegment` preserves well-formedness when called while expanding. -/
theorem wf_migrateSegment (s : BambooFilter) (rs : List Nat) (hwf : WF s)
    (he : s.expanding = true) : WF (s.migrateSegment rs).1 := by
  obtain ⟨h1, h2, h3, h4⟩ := hwf
  obtain ⟨n1, n2, n3⟩ := h4 he
  simp only [BambooFilter.migrateSegment]
  split
  · next hcur =>
    refine ⟨?_, ?_, h3, ?_⟩
    · simp [drainRange_new_length, n1]
    · simp only []
      omega
    · intro hee
      simp at hee
  · next hcur =>
    refine ⟨?_, h2, h3, ?_⟩
    · simp [drainRange_old_length, h1]
    · intro _
      refine ⟨by simp [drainRange_new_length, n1], by simpa using n2, ?_⟩
      simp only [] at hcur ⊢
      have hmin : min (s.migrateCursor + s.segSz) s.oldCap ≤ s.oldCap := Nat.min_le_right _ _
      omega

/-- The placement phase preserves well-formedness. -/
theorem wf_place (s : BambooFilter) (h : Nat) (rs : List Nat) (hwf : WF s) :
    WF (s.place h rs).2.1 := by
  obtain ⟨h1, h2, h3, h4⟩ := hwf
  obtain ⟨f1, f2, f3, f4, f5, f6, f7, f8, f9⟩ := place_frame s h rs
  refine ⟨?_, ?_, ?_, ?_⟩
  · rw [place_old_length, h1, f2]
  · rw [f2]
    exact h2
  · rw [f4]
    exact h3
  · intro he
    rw [f8] at he
    obtain ⟨g1, g2, g3⟩ := h4 he
    rw [f1, f3, f2, f9]
    exact ⟨g1, g2, g3⟩

/-- `maybeExpand` preserves well-formedness. -/
theorem wf_maybeExpand (s : BambooFilter) (rs : List Nat) (hwf : WF s) :
    WF (s.maybeExpand rs).1 := by
  simp only [BambooFilter.maybeExpand]
  split_ifs with h1 h2
  · exact wf_migrateSegment s rs hwf h1
  · exact hwf
  · exact wf_migrateSegment s.beginExpand rs
      (wf_beginExpand s hwf (by simpa using h1)) rfl

/-- `insert` preserves well-formedness. -/
theorem wf_insert (s : BambooFilter) (h : Nat) (rs : List Nat) (hwf : WF s) :
    WF (s.insert h rs).2.1 := by
  simp only [BambooFilter.insert]
  split_ifs with h1
  · exact hwf
  · exact wf_place _ _ _ (wf_maybeExpand s rs hwf)

/-- Every reachable state is well-formed. -/
theorem reach_wf (s : BambooFilter) (hr : Reach s) : WF s := by
  induction hr with
  | init cap bSz lfq maxE segSz hc hB =>
    refine ⟨by simp [BambooFilter.init], hc, hB, ?_⟩
    intro he
    simp [BambooFilter.init] at he
  | step s h rs _ ih => exact wf_insert s h rs ih

/-- C7: whenever the migrate cursor reaches `oldCap_` (the drained
segment extends to the end of the old table), the migration completes in
the same `migrateSegment` call: `old_` is replaced by the drained new
table, `new_` is released (`newCap_ = 0`, `new_` empty), `expanding_`
becomes false and `capacity()` reports the doubled bucket count
`2*oldCap_`; and no reachable state has `migrateCursor_ = oldCap_` while
still expanding. -/
theorem migration_completion :
    (∀ (s : BambooFilter) (rs : List Nat), WF s → s.expanding = true →
      min (s.migrateCursor + s.segSz) s.oldCap = s.oldCap →
      (s.migrateSegment rs).1.expanding = false ∧
        (s.migrateSegment rs).1.oldCap = 2 * s.oldCap ∧
        (s.migrateSegment rs).1.newT = [] ∧ (s.migrateSegment rs).1.newCap = 0 ∧
        (s.migrateSegment rs).1.old =
          (drainRange s.B s.maxEvict s.newCap (s.oldCap - s.migrateCursor) s.migrateCursor
            s.old s.newT rs).2.1 ∧
        (s.migrateSegment rs).1.capacity = 2 * s.oldCap) ∧
    (∀ t : BambooFilter, Reach t → ¬(t.migrateCursor = t.oldCap ∧ t.expanding = true)) := by
  constructor
  · intro s rs hwf he hend
    obtain ⟨h1, h2, h3, h4⟩ := hwf
    obtain ⟨n1, n2, n3⟩ := h4 he
    simp only [BambooFilter.migrateSegment, hend]
    split
    · next hcur =>
      refine ⟨rfl, by simpa using n2, rfl, rfl, ?_, ?_⟩
      · simp
      · simp [BambooFilter.capacity, n2]
    · next hcur => simp at hcur
  · intro t hrt
    rintro ⟨hc, hex⟩
    obtain ⟨_, _, _, h4⟩ := reach_wf t hrt
    obtain ⟨_, _, h6⟩ := h4 hex
    omega

/-- Witness for `migration_completion`: a concrete one-bucket expanding
state whose next segment drains the whole old table, and the invariant at
a freshly constructed filter. -/
theorem migration_completion_witness :
    (((⟨[[5]], [[], []], 1, 2, 1, mkRat 9 10, 1, 1, true, 0, 1⟩ :
        BambooFilter).migrateSegment []).1.expanding = false ∧
      ((⟨[[5]], [[], []], 1, 2, 1, mkRat 9 10, 1, 1, true, 0, 1⟩ :
        BambooFilter).migrateSegment []).1.oldCap = 2 * 1 ∧
      ((⟨[[5]], [[], []], 1, 2, 1, mkRat 9 10, 1, 1, true, 0, 1⟩ :
        BambooFilter).migrateSegment []).1.newT = [] ∧
      ((⟨[[5]], [[], []], 1, 2, 1, mkRat 9 10, 1, 1, true, 0, 1⟩ :
        BambooFilter).migrateSegment []).1.newCap = 0 ∧
      ((⟨[[5]], [[], []], 1, 2, 1, mkRat 9 10, 1, 1, true, 0, 1⟩ :
        BambooFilter).migrateSegment []).1.old =
        (drainRange 1 1 2 (1 - 0) 0 [[5]] [[], []] []).2.1 ∧
      ((⟨[[5]], [[], []], 1, 2, 1, mkRat 9 10, 1, 1, true, 0, 1⟩ :
        BambooFilter).migrateSegment []).1.capacity = 2 * 1) ∧
    ¬((BambooFilter.init 8 4 (mkRat 9 10) 500 4).migrateCursor =
        (BambooFilter.init 8 4 (mkRat 9 10) 500 4).oldCap ∧
      (BambooFilter.init 8 4 (mkRat 9 10) 500 4).expanding = true) :=
  ⟨migration_completion.1 ⟨[[5]], [[], []], 1, 2, 1, mkRat 9 10, 1, 1, true, 0, 1⟩ []
      (by refine ⟨rfl, by decide, by decide, ?_⟩; intro _; exact ⟨rfl, rfl, by decide⟩)
      rfl (by decide),
    migration_completion.2 _ (Reach.init 8 4 (mkRat 9 10) 500 4 (by decide) (by decide))⟩

/-- C6: in an insert of a new key, expansion begins if and only if the
filter is not already expanding and the load factor `size/(oldCap*B)`
exceeds the threshold; beginning expansion allocates a new table of
exactly `2*oldCap_` buckets, sets the cursor to 0 and sets `expanding_`;
and when the filter is steady with the load factor not above the
threshold, the insert changes no expansion state. -/
theorem insert_expansion_trigger (s : BambooFilter) (h : Nat) (rs : List Nat)
    (hnd : s.contains h = false) :
    ((s.insert h rs).2.2.1.started = true ↔ (s.expanding = false ∧ s.loadF < s.lf)) ∧
      (s.beginExpand.newT.length = 2 * s.oldCap ∧ s.beginExpand.newCap = 2 * s.oldCap ∧
        s.beginExpand.migrateCursor = 0 ∧ s.beginExpand.expanding = true) ∧
      (s.expanding = false → s.lf ≤ s.loadF →
        (s.insert h rs).2.1.expanding = false ∧
          (s.insert h rs).2.1.migrateCursor = s.migrateCursor ∧
          (s.insert h rs).2.1.newT = s.newT ∧
          (s.insert h rs).2.1.newCap = s.newCap ∧
          (s.insert h rs).2.1.oldCap = s.oldCap) := by
  have hins :
      (s.insert h rs).2.1 = ((s.maybeExpand rs).1.place h (s.maybeExpand rs).2.2.2).2.1 ∧
        (s.insert h rs).2.2.1.started = (s.maybeExpand rs).2.2.1 := by
    rw [BambooFilter.insert]
    simp [hnd]
  refine ⟨?_, ⟨by simp [BambooFilter.beginExpand, Nat.mul_comm],
    by simp [BambooFilter.beginExpand, Nat.mul_comm], rfl, rfl⟩, ?_⟩
  · rw [hins.2]
    simp only [BambooFilter.maybeExpand]
    split_ifs with h1 h2
    · simp [h1]
    · simp only [Bool.not_eq_true] at h1
      simp [h1, not_lt.mpr h2]
    · simp only [Bool.not_eq_true] at h1
      simp [h1, not_le.mp h2]
  · intro he hl
    obtain ⟨f1, f2, f3, f4, f5, f6, f7, f8, f9⟩ :=
      place_frame (s.maybeExpand rs).1 h (s.maybeExpand rs).2.2.2
    rw [hins.1]
    rw [maybeExpand_steady s rs he hl] at f1 f2 f3 f8 f9 ⊢
    exact ⟨by rw [f8, he], f9, f1, f3, f2⟩

/-- Witness for `insert_expansion_trigger` at a freshly constructed
filter (steady, load factor 0) inserting digest 5. -/
theorem insert_expansion_trigger_witness :
    (((BambooFilter.init 4 1 (mkRat 4 10) 0 1).insert 5 []).2.2.1.started = true ↔
      ((BambooFilter.init 4 1 (mkRat 4 10) 0 1).expanding = false ∧
        (BambooFilter.init 4 1 (mkRat 4 10) 0 1).loadF <
          (BambooFilter.init 4 1 (mkRat 4 10) 0 1).lf)) ∧
      ((BambooFilter.init 4 1 (mkRat 4 10) 0 1).beginExpand.newT.length =
          2 * (BambooFilter.init 4 1 (mkRat 4 10) 0 1).oldCap ∧
        (BambooFilter.init 4 1 (mkRat 4 10) 0 1).beginExpand.newCap =
          2 * (BambooFilter.init 4 1 (mkRat 4 10) 0 1).oldCap ∧
        (BambooFilter.init 4 1 (mkRat 4 10) 0 1).beginExpand.migrateCursor = 0 ∧
        (BambooFilter.init 4 1 (mkRat 4 10) 0 1).beginExpand.expanding = true) ∧
      ((BambooFilter.init 4 1 (mkRat 4 10) 0 1).expanding = false →
        (BambooFilter.init 4 1 (mkRat 4 10) 0 1).lf ≤
          (BambooFilter.init 4 1 (mkRat 4 10) 0 1).loadF →
        ((BambooFilter.init 4 1 (mkRat 4 10) 0 1).insert 5 []).2.1.expanding = false ∧
          ((BambooFilter.init 4 1 (mkRat 4 10) 0 1).insert 5 []).2.1.migrateCursor =
            (BambooFilter.init 4 1 (mkRat 4 10) 0 1).migrateCursor ∧
          ((BambooFilter.init 4 1 (mkRat 4 10) 0 1).insert 5 []).2.1.newT =
            (BambooFilter.init 4 1 (mkRat 4 10) 0 1).newT ∧
          ((BambooFilter.init 4 1 (mkRat 4 10) 0 1).insert 5 []).2.1.newCap =
            (BambooFilter.init 4 1 (mkRat 4 10) 0 1).newCap ∧
          ((BambooFilter.init 4 1 (mkRat 4 10) 0 1).insert 5 []).2.1.oldCap =
            (BambooFilter.init 4 1 (mkRat 4 10) 0 1).oldCap) :=
  insert_expansion_trigger (BambooFilter.init 4 1 (mkRat 4 10) 0 1) 5 [] (by decide)

/-- Reading a bucket other than the updated one. -/
theorem getD_set_ne' (t : Table) (idx y : Nat) (bb : Bucket) (hne : y ≠ idx) :
    (t.set idx bb).getD y [] = t.getD y [] := by
  simp [List.getD_eq_getElem?_getD, List.getElem?_set_ne (Ne.symm hne)]

/-- Reading the updated bucket (in-range update). -/
theorem getD_set_self' (t : Table) (idx : Nat) (bb : Bucket) (hlt : idx < t.length) :
    (t.set idx bb).getD idx [] = bb := by
  simp [List.getD_eq_getElem?_getD, List.getElem?_set_self hlt]

/-- An out-of-range `set` is a no-op (as `std::vector` indexing is only
ever performed in range in the modelled code paths). -/
theorem set_oob (t : Table) (idx : Nat) (bb : Bucket) (hge : t.length ≤ idx) :
    t.set idx bb = t := List.set_eq_of_length_le hge

/-- Membership in a bucket survives replacing a slot that holds a
different value. -/
theorem mem_set_of_getElem_ne (l : List Nat) (r x f : Nat) (hf : f ∈ l)
    (hr : r < l.length) (hne : l[r] ≠ f) : f ∈ l.set r x := by
  obtain ⟨n, hn, hget⟩ := List.mem_iff_getElem.mp hf
  refine List.mem_iff_getElem.mpr ⟨n, by simpa using hn, ?_⟩
  rw [List.getElem_set_ne (by rintro rfl; exact hne hget)]
  exact hget

/-- Membership in a table bucket survives replacing (or appending to) a
possibly different bucket, provided the element would stay in the new
bucket when it is the same one. -/
theorem mem_getD_set (t : Table) (idx y : Nat) (bb : Bucket) (f : Nat)
    (hy : f ∈ t.getD y []) (hsame : y = idx → f ∈ bb) : f ∈ (t.set idx bb).getD y [] := by
  by_cases hc : y = idx
  · subst hc
    by_cases hlt : y < t.length
    · rw [getD_set_self' _ _ _ hlt]
      exact hsame rfl
    · rw [set_oob _ _ _ (le_of_not_lt hlt)]
      exact hy
  · rw [getD_set_ne' _ _ _ _ hc]
    exact hy

/-- `tryPut` preserves bucket membership. -/
theorem tryPut_mem_preserve (f y : Nat) (t : Table) (idx fp B : Nat)
    (hy : f ∈ t.getD y []) : f ∈ (tryPut t idx fp B).2.getD y [] := by
  unfold tryPut
  split
  · exact mem_getD_set t idx y _ f hy (fun he => by
      subst he
      exact List.mem_append_left _ hy)
  · exact hy

/-- A successful `tryPut` stores the fingerprint in the requested
(in-range) bucket. -/
theorem tryPut_mem_new (t : Table) (idx fp B : Nat) (t2 : Table) (hidx : idx < t.length)
    (heq : tryPut t idx fp B = (true, t2)) : fp ∈ t2.getD idx [] := by
  unfold tryPut at heq
  split at heq
  · cases heq
    rw [getD_set_self' _ _ _ hidx]
    exact List.mem_append_right _ (List.mem_singleton_self fp)
  · cases heq

/-- A drawn victim index is within the bucket. -/
theorem draw_lt (rs : List Nat) (n : Nat) (hn : 0 < n) : (draw rs n).1 < n := by
  cases rs with
  | nil => simpa [draw] using hn
  | cons x t => simpa [draw] using Nat.mod_lt x hn

/-- The tracked fingerprint `f` belongs to one of the two buckets
`j1, j2` of the table — the invariant that makes a fingerprint visible to
the double-probe queries. -/
def memPair (f j1 j2 : Nat) (t : Table) : Prop :=
  f ∈ t.getD j1 [] ∨ f ∈ t.getD j2 []

/-- One cuckoo swap preserves the pair invariant: either `f` is still in
one of its two buckets afterwards, or `f` itself was the displaced victim
and its relocation target is again one of the two buckets. -/
theorem swap_step_memPair (L f j1 j2 : Nat) (hj1 : j1 < L) (hj2 : j2 < L)
    (halt1 : altIndex j1 f L = j2) (halt2 : altIndex j2 f L = j1)
    (t : Table) (idx g r : Nat) (hLen : t.length = L)
    (hr : r < (t.getD idx []).length)
    (hstart : memPair f j1 j2 t ∨ (g = f ∧ (idx = j1 ∨ idx = j2))) :
    memPair f j1 j2 (t.set idx ((t.getD idx []).set r g)) ∨
      ((t.getD idx []).getD r 0 = f ∧
        (altIndex idx ((t.getD idx []).getD r 0) L = j1 ∨
          altIndex idx ((t.getD idx []).getD r 0) L = j2)) := by
  rcases hstart with hP | ⟨hg, hidx⟩
  · rcases hP with hy | hy
    · by_cases hyi : j1 = idx
      · subst hyi
        by_cases hv : (t.getD j1 [])[r] = f
        · right
          rw [List.getD_eq_getElem _ _ hr, hv]
          exact ⟨rfl, Or.inr halt1⟩
        · left
          left
          exact mem_getD_set t j1 j1 _ f hy
            (fun _ => mem_set_of_getElem_ne _ r g f hy hr hv)
      · left
        left
        rw [getD_set_ne' _ _ _ _ hyi]
        exact hy
    · by_cases hyi : j2 = idx
      · subst hyi
        by_cases hv : (t.getD j2 [])[r] = f
        · right
          rw [List.getD_eq_getElem _ _ hr, hv]
          exact ⟨rfl, Or.inl halt2⟩
        · left
          right
          exact mem_getD_set t j2 j2 _ f hy
            (fun _ => mem_set_of_getElem_ne _ r g f hy hr hv)
      · left
        right
        rw [getD_set_ne' _ _ _ _ hyi]
        exact hy
  · left
    have hmem : f ∈ (t.getD idx []).set r g := by
      rw [hg]
      exact List.mem_set _ r hr f
    rcases hidx with hi | hi
    · left
      rw [← hi, getD_set_self' _ _ _ (by rw [hLen, hi]; exact hj1)]
      exact hmem
    · right
      rw [← hi, getD_set_self' _ _ _ (by rw [hLen, hi]; exact hj2)]
      exact hmem

/-- Alternate indices are always in range. -/
theorem altIndex_lt (i fp L : Nat) (hL : 0 < L) : altIndex i fp L < L :=
  Nat.mod_lt _ hL

/-- A cuckoo chain either fails or loses nothing. -/
theorem cuckooRec_drops_spec (Bp fuel : Nat) (t : Table) (idx g : Nat) (rs : List Nat) :
    (cuckooRec Bp fuel t idx g rs).ok = false ∨ (cuckooRec Bp fuel t idx g rs).drops = [] := by
  induction fuel generalizing t idx g rs with
  | zero => exact Or.inl rfl
  | succ n ih =>
    simp only [cuckooRec]
    split
    · exact Or.inl rfl
    · split
      · exact Or.inr rfl
      · simpa using ih _ _ _ _

/-- A successful cuckoo chain loses nothing. -/
theorem cuckooRec_ok_drops (Bp fuel : Nat) (t : Table) (idx g : Nat) (rs : List Nat)
    (hok : (cuckooRec Bp fuel t idx g rs).ok = true) :
    (cuckooRec Bp fuel t idx g rs).drops = [] := by
  rcases cuckooRec_drops_spec Bp fuel t idx g rs with hf | hd
  · rw [hok] at hf
    cases hf
  · exact hd

/-- A depth-0 cuckoo call either fails or loses nothing. -/
theorem cuckoo_drops_spec (Bp maxE : Nat) (t : Table) (idx g : Nat) (rs : List Nat) :
    (cuckoo Bp maxE t idx g rs).ok = false ∨ (cuckoo Bp maxE t idx g rs).drops = [] := by
  cases maxE with
  | zero => exact Or.inl rfl
  | succ m =>
    simp only [cuckoo]
    split
    · exact Or.inl rfl
    · split
      · exact Or.inr rfl
      · simpa using cuckooRec_drops_spec Bp m _ _ _ _

/-- A successful depth-0 cuckoo call loses nothing. -/
theorem cuckoo_ok_drops (Bp maxE : Nat) (t : Table) (idx g : Nat) (rs : List Nat)
    (hok : (cuckoo Bp maxE t idx g rs).ok = true) :
    (cuckoo Bp maxE t idx g rs).drops = [] := by
  rcases cuckoo_drops_spec Bp maxE t idx g rs with hf | hd
  · rw [hok] at hf
    cases hf
  · exact hd

/-- Pair-invariant preservation along a cuckoo chain: if `f` starts in
one of its two legitimate buckets (or is the carried fingerprint headed
for one of them), then after the chain `f` is again in one of the two
buckets unless the chain recorded it as lost.  Requires the alternate
function to map each of the two buckets to the other (which power-of-two
capacities guarantee). -/
theorem cuckooRec_memPair (Bp L f j1 j2 : Nat) (hj1 : j1 < L) (hj2 : j2 < L)
    (halt1 : altIndex j1 f L = j2) (halt2 : altIndex j2 f L = j1)
    (fuel : Nat) (t : Table) (idx g : Nat) (rs : List Nat) (hLen : t.length = L)
    (hstart : memPair f j1 j2 t ∨ (g = f ∧ (idx = j1 ∨ idx = j2))) :
    memPair f j1 j2 (cuckooRec Bp fuel t idx g rs).tab ∨
      f ∈ (cuckooRec Bp fuel t idx g rs).drops := by
  induction fuel generalizing t idx g rs with
  | zero =>
    rcases hstart with hP | ⟨hg, _⟩
    · exact Or.inl hP
    · right
      simp [cuckooRec, hg]
  | succ n ih =>
    simp only [cuckooRec, List.length_set, hLen]
    split
    · next hemp =>
      rcases hstart with hP | ⟨hg, _⟩
      · exact Or.inl hP
      · right
        simp [hg]
    · next hemp =>
      have hlen0 : 0 < (t.getD idx []).length := by
        rcases List.length_pos.mpr (fun hnil => hemp (List.isEmpty_iff.mpr hnil)) with h
        exact h
      have hr : (draw rs (t.getD idx []).length).1 < (t.getD idx []).length :=
        draw_lt _ _ hlen0
      have hstep := swap_step_memPair L f j1 j2 hj1 hj2 halt1 halt2 t idx g
        (draw rs (t.getD idx []).length).1 hLen hr hstart
      have hL0 : 0 < L := Nat.lt_of_le_of_lt (Nat.zero_le j1) hj1
      split
      · next t2 heq =>
        left
        rcases hstep with hP1 | ⟨hvic, halts⟩
        · rcases hP1 with hy | hy
          · left
            have h2 := tryPut_mem_preserve f j1
              (t.set idx ((t.getD idx []).set (draw rs (t.getD idx []).length).1 g))
              (altIndex idx ((t.getD idx []).getD (draw rs (t.getD idx []).length).1 0) L)
              ((t.getD idx []).getD (draw rs (t.getD idx []).length).1 0) Bp hy
            rw [heq] at h2
            exact h2
          · right
            have h2 := tryPut_mem_preserve f j2
              (t.set idx ((t.getD idx []).set (draw rs (t.getD idx []).length).1 g))
              (altIndex idx ((t.getD idx []).getD (draw rs (t.getD idx []).length).1 0) L)
              ((t.getD idx []).getD (draw rs (t.getD idx []).length).1 0) Bp hy
            rw [heq] at h2
            exact h2
        · have htgt : altIndex idx ((t.getD idx []).getD (draw rs (t.getD idx []).length).1 0) L <
              (t.set idx ((t.getD idx []).set (draw rs (t.getD idx []).length).1 g)).length := by
            rw [List.length_set, hLen]
            exact altIndex_lt _ _ _ hL0
          have h2 := tryPut_mem_new _ _ _ _ _ htgt heq
          rw [hvic] at h2 halts
          rcases halts with ha | ha
          · left
            rw [ha] at h2
            exact h2
          · right
            rw [ha] at h2
            exact h2
      · next heq =>
        have hres := ih (t.set idx ((t.getD idx []).set (draw rs (t.getD idx []).length).1 g))
          (altIndex idx ((t.getD idx []).getD (draw rs (t.getD idx []).length).1 0) L)
          ((t.getD idx []).getD (draw rs (t.getD idx []).length).1 0)
          (draw rs (t.getD idx []).length).2
          (by rw [List.length_set, hLen])
          (by
            rcases hstep with hP1 | ⟨hvic, halts⟩
            · exact Or.inl hP1
            · exact Or.inr ⟨hvic, by rw [hvic] at halts; rw [hvic]; exact halts⟩)
        simpa using hres

/-- Pair-invariant preservation for a depth-0 cuckoo call: afterwards `f`
is in one of its two buckets, or was recorded as lost, or the call
rejected its input without touching the table. -/
theorem cuckoo_memPair (Bp maxE L f j1 j2 : Nat) (hj1 : j1 < L) (hj2 : j2 < L)
    (halt1 : altIndex j1 f L = j2) (halt2 : altIndex j2 f L = j1)
    (t : Table) (idx g : Nat) (rs : List Nat) (hLen : t.length = L)
    (hstart : memPair f j1 j2 t ∨ (g = f ∧ (idx = j1 ∨ idx = j2))) :
    memPair f j1 j2 (cuckoo Bp maxE t idx g rs).tab ∨
      f ∈ (cuckoo Bp maxE t idx g rs).drops ∨
      ((cuckoo Bp maxE t idx g rs).ok = false ∧ (cuckoo Bp maxE t idx g rs).tab = t) := by
  cases maxE with
  | zero => exact Or.inr (Or.inr ⟨rfl, rfl⟩)
  | succ m =>
    simp only [cuckoo, List.length_set, hLen]
    split
    · exact Or.inr (Or.inr ⟨rfl, rfl⟩)
    · next hemp =>
      have hlen0 : 0 < (t.getD idx []).length :=
        List.length_pos.mpr (fun hnil => hemp (List.isEmpty_iff.mpr hnil))
      have hr : (draw rs (t.getD idx []).length).1 < (t.getD idx []).length :=
        draw_lt _ _ hlen0
      have hstep := swap_step_memPair L f j1 j2 hj1 hj2 halt1 halt2 t idx g
        (draw rs (t.getD idx []).length).1 hLen hr hstart
      have hL0 : 0 < L := Nat.lt_of_le_of_lt (Nat.zero_le j1) hj1
      split
      · next t2 heq =>
        left
        rcases hstep with hP1 | ⟨hvic, halts⟩
        · rcases hP1 with hy | hy
          · left
            have h2 := tryPut_mem_preserve f j1
              (t.set idx ((t.getD idx []).set (draw rs (t.getD idx []).length).1 g))
              (altIndex idx ((t.getD idx []).getD (draw rs (t.getD idx []).length).1 0) L)
              ((t.getD idx []).getD (draw rs (t.getD idx []).length).1 0) Bp hy
            rw [heq] at h2
            exact h2
          · right
            have h2 := tryPut_mem_preserve f j2
              (t.set idx ((t.getD idx []).set (draw rs (t.getD idx []).length).1 g))
              (altIndex idx ((t.getD idx []).getD (draw rs (t.getD idx []).length).1 0) L)
              ((t.getD idx []).getD (draw rs (t.getD idx []).length).1 0) Bp hy
            rw [heq] at h2
            exact h2
        · have htgt : altIndex idx ((t.getD idx []).getD (draw rs (t.getD idx []).length).1 0) L <
              (t.set idx ((t.getD idx []).set (draw rs (t.getD idx []).length).1 g)).length := by
            rw [List.length_set, hLen]
            exact altIndex_lt _ _ _ hL0
          have h2 := tryPut_mem_new _ _ _ _ _ htgt heq
          rw [hvic] at h2 halts
          rcases halts with ha | ha
          · left
            rw [ha] at h2
            exact h2
          · right
            rw [ha] at h2
            exact h2
      · next heq =>
        have hres := cuckooRec_memPair Bp L f j1 j2 hj1 hj2 halt1 halt2 m
          (t.set idx ((t.getD idx []).set (draw rs (t.getD idx []).length).1 g))
          (altIndex idx ((t.getD idx []).getD (draw rs (t.getD idx []).length).1 0) L)
          ((t.getD idx []).getD (draw rs (t.getD idx []).length).1 0)
          (draw rs (t.getD idx []).length).2
          (by rw [List.length_set, hLen])
          (by
            rcases hstep with hP1 | ⟨hvic, halts⟩
            · exact Or.inl hP1
            · exact Or.inr ⟨hvic, by rw [hvic] at halts ⊢; exact halts⟩)
        rcases hres with hres | hres
        · exact Or.inl (by simpa using hres)
        · exact Or.inr (Or.inl (by simpa using hres))

/-- A fingerprint that sits in bucket `y` and is never displaced by the
chain (does not appear among its eviction victims) is still in bucket `y`
afterwards. -/
theorem cuckooRec_mem_fixed (Bp fuel : Nat) (t : Table) (idx g : Nat) (rs : List Nat)
    (f y : Nat) (hy : f ∈ t.getD y []) :
    f ∈ (cuckooRec Bp fuel t idx g rs).tab.getD y [] ∨
      f ∈ (cuckooRec Bp fuel t idx g rs).evs := by
  induction fuel generalizing t idx g rs with
  | zero => exact Or.inl hy
  | succ n ih =>
    simp only [cuckooRec]
    split
    · exact Or.inl hy
    · next hemp =>
      have hlen0 : 0 < (t.getD idx []).length :=
        List.length_pos.mpr (fun hnil => hemp (List.isEmpty_iff.mpr hnil))
      have hr : (draw rs (t.getD idx []).length).1 < (t.getD idx []).length :=
        draw_lt _ _ hlen0
      split
      · next t2 heq =>
        by_cases hvy : idx = y
        · by_cases hv : (t.getD idx [])[(draw rs (t.getD idx []).length).1] = f
          · right
            rw [List.getD_eq_getElem _ _ hr, hv]
            exact List.mem_singleton_self f
          · left
            have h1 : f ∈ (t.set idx ((t.getD idx []).set (draw rs (t.getD idx []).length).1 g)).getD y [] := by
              subst hvy
              exact mem_getD_set t idx idx _ f hy
                (fun _ => mem_set_of_getElem_ne _ _ _ _ hy hr hv)
            have h2 := tryPut_mem_preserve f y
              (t.set idx ((t.getD idx []).set (draw rs (t.getD idx []).length).1 g))
              (altIndex idx ((t.getD idx []).getD (draw rs (t.getD idx []).length).1 0)
                (t.set idx ((t.getD idx []).set (draw rs (t.getD idx []).length).1 g)).length)
              ((t.getD idx []).getD (draw rs (t.getD idx []).length).1 0) Bp h1
            rw [heq] at h2
            simpa using h2
        · left
          have h1 : f ∈ (t.set idx ((t.getD idx []).set (draw rs (t.getD idx []).length).1 g)).getD y [] := by
            rw [getD_set_ne' _ _ _ _ (fun he => hvy he.symm)]
            exact hy
          have h2 := tryPut_mem_preserve f y
            (t.set idx ((t.getD idx []).set (draw rs (t.getD idx []).length).1 g))
            (altIndex idx ((t.getD idx []).getD (draw rs (t.getD idx []).length).1 0)
              (t.set idx ((t.getD idx []).set (draw rs (t.getD idx []).length).1 g)).length)
            ((t.getD idx []).getD (draw rs (t.getD idx []).length).1 0) Bp h1
          rw [heq] at h2
          simpa using h2
      · next heq =>
        by_cases hvy : idx = y
        · by_cases hv : (t.getD idx [])[(draw rs (t.getD idx []).length).1] = f
          · right
            rw [List.getD_eq_getElem _ _ hr, hv]
            exact List.mem_cons_self f _
          · have h1 : f ∈ (t.set idx ((t.getD idx []).set (draw rs (t.getD idx []).length).1 g)).getD y [] := by
              subst hvy
              exact mem_getD_set t idx idx _ f hy
                (fun _ => mem_set_of_getElem_ne _ _ _ _ hy hr hv)
            rcases ih _ _ _ _ h1 with hres | hres
            · exact Or.inl (by simpa using hres)
            · right
              simpa using Or.inr hres
        · have h1 : f ∈ (t.set idx ((t.getD idx []).set (draw rs (t.getD idx []).length).1 g)).getD y [] := by
            rw [getD_set_ne' _ _ _ _ (fun he => hvy he.symm)]
            exact hy
          rcases ih _ _ _ _ h1 with hres | hres
          · exact Or.inl (by simpa using hres)
          · right
            simpa using Or.inr hres

/-- `cuckooRec_mem_fixed` for the depth-0 call. -/
theorem cuckoo_mem_fixed (Bp maxE : Nat) (t : Table) (idx g : Nat) (rs : List Nat)
    (f y : Nat) (hy : f ∈ t.getD y []) :
    f ∈ (cuckoo Bp maxE t idx g rs).tab.getD y [] ∨ f ∈ (cuckoo Bp maxE t idx g rs).evs := by
  cases maxE with
  | zero => exact Or.inl hy
  | succ m =>
    simp only [cuckoo]
    split
    · exact Or.inl hy
    · next hemp =>
      have hlen0 : 0 < (t.getD idx []).length :=
        List.length_pos.mpr (fun hnil => hemp (List.isEmpty_iff.mpr hnil))
      have hr : (draw rs (t.getD idx []).length).1 < (t.getD idx []).length :=
        draw_lt _ _ hlen0
      split
      · next t2 heq =>
        by_cases hvy : idx = y
        · by_cases hv : (t.getD idx [])[(draw rs (t.getD idx []).length).1] = f
          · right
            rw [List.getD_eq_getElem _ _ hr, hv]
            exact List.mem_singleton_self f
          · left
            have h1 : f ∈ (t.set idx ((t.getD idx []).set (draw rs (t.getD idx []).length).1 g)).getD y [] := by
              subst hvy
              exact mem_getD_set t idx idx _ f hy
                (fun _ => mem_set_of_getElem_ne _ _ _ _ hy hr hv)
            have h2 := tryPut_mem_preserve f y
              (t.set idx ((t.getD idx []).set (draw rs (t.getD idx []).length).1 g))
              (altIndex idx ((t.getD idx []).getD (draw rs (t.getD idx []).length).1 0)
                (t.set idx ((t.getD idx []).set (draw rs (t.getD idx []).length).1 g)).length)
              ((t.getD idx []).getD (draw rs (t.getD idx []).length).1 0) Bp h1
            rw [heq] at h2
            simpa using h2
        · left
          have h1 : f ∈ (t.set idx ((t.getD idx []).set (draw rs (t.getD idx []).length).1 g)).getD y [] := by
            rw [getD_set_ne' _ _ _ _ (fun he => hvy he.symm)]
            exact hy
          have h2 := tryPut_mem_preserve f y
            (t.set idx ((t.getD idx []).set (draw rs (t.getD idx []).length).1 g))
            (altIndex idx ((t.getD idx []).getD (draw rs (t.getD idx []).length).1 0)
              (t.set idx ((t.getD idx []).set (draw rs (t.getD idx []).length).1 g)).length)
            ((t.getD idx []).getD (draw rs (t.getD idx []).length).1 0) Bp h1
          rw [heq] at h2
          simpa using h2
      · next heq =>
        by_cases hvy : idx = y
        · by_cases hv : (t.getD idx [])[(draw rs (t.getD idx []).length).1] = f
          · right
            rw [List.getD_eq_getElem _ _ hr, hv]
            exact List.mem_cons_self f _
          · have h1 : f ∈ (t.set idx ((t.getD idx []).set (draw rs (t.getD idx []).length).1 g)).getD y [] := by
              subst hvy
              exact mem_getD_set t idx idx _ f hy
                (fun _ => mem_set_of_getElem_ne _ _ _ _ hy hr hv)
            rcases cuckooRec_mem_fixed Bp m _ _ _ _ f y h1 with hres | hres
            · exact Or.inl (by simpa using hres)
            · right
              simpa using Or.inr hres
        · have h1 : f ∈ (t.set idx ((t.getD idx []).set (draw rs (t.getD idx []).length).1 g)).getD y [] := by
            rw [getD_set_ne' _ _ _ _ (fun he => hvy he.symm)]
            exact hy
          rcases cuckooRec_mem_fixed Bp m _ _ _ _ f y h1 with hres | hres
          · exact Or.inl (by simpa using hres)
          · right
            simpa using Or.inr hres

/-- The alternate-index involution, in the form used by the invariant
proofs. -/
theorem altIndex_invol (cap i fp k : Nat) (hc : cap = 2 ^ k) (hi : i < cap) :
    altIndex (altIndex i fp cap) fp cap = i := by
  subst hc
  exact xor_mod_two_pow_invol i (fp * 0x5bd1e995) k hi

/-- If the key's fingerprint is in one of its two old-table buckets, the
query answers true (the old table is probed first, expanding or not). -/
theorem contains_of_memPair (s : BambooFilter) (h : Nat)
    (hm : memPair (makeFp h) (h % s.oldCap) (altIndex (h % s.oldCap) (makeFp h) s.oldCap)
      s.old) : s.contains h = true := by
  have h1 : (hasFp s.old (h % s.oldCap) (makeFp h) ||
      hasFp s.old (altIndex (h % s.oldCap) (makeFp h) s.oldCap) (makeFp h)) = true := by
    rcases hm with hy | hy
    · simp only [Bool.or_eq_true]
      left
      simpa [hasFp] using hy
    · simp only [Bool.or_eq_true]
      right
      simpa [hasFp] using hy
  simp [BambooFilter.contains, h1]

/-- Specification of the placement phase: it either fails, or it leaves
the key's fingerprint in one of the key's two buckets (power-of-two
capacity). -/
theorem place_mem_spec (s : BambooFilter) (h : Nat) (rs : List Nat) (k : Nat)
    (hlen : s.old.length = s.oldCap) (hpos : 0 < s.oldCap) (hpow : s.oldCap = 2 ^ k) :
    (s.place h rs).1 = false ∨
      memPair (makeFp h) (h % s.oldCap) (altIndex (h % s.oldCap) (makeFp h) s.oldCap)
        (s.place h rs).2.1.old := by
  have hi1 : h % s.oldCap < s.oldCap := Nat.mod_lt _ hpos
  have hi2 : altIndex (h % s.oldCap) (makeFp h) s.oldCap < s.oldCap := altIndex_lt _ _ _ hpos
  have halt2 : altIndex (altIndex (h % s.oldCap) (makeFp h) s.oldCap) (makeFp h) s.oldCap =
      h % s.oldCap := altIndex_invol s.oldCap _ _ k hpow hi1
  simp only [BambooFilter.place]
  split
  · next t1 heq =>
    right
    exact Or.inl (tryPut_mem_new s.old _ _ _ t1 (by rw [hlen]; exact hi1) heq)
  · next heq0 =>
    split_ifs with hok1 hok2
    · right
      have hres := cuckoo_memPair s.B s.maxEvict s.oldCap (makeFp h) (h % s.oldCap)
        (altIndex (h % s.oldCap) (makeFp h) s.oldCap) hi1 hi2 rfl halt2 s.old (h % s.oldCap)
        (makeFp h) rs hlen (Or.inr ⟨rfl, Or.inl rfl⟩)
      rcases hres with hm | hm | hm
      · exact hm
      · rw [cuckoo_ok_drops _ _ _ _ _ _ hok1] at hm
        cases hm
      · rw [hok1] at hm
        cases hm.1
    · split
      · next t2 heq2 =>
        right
        refine Or.inr (tryPut_mem_new _ _ _ _ t2 ?_ heq2)
        rw [cuckoo_length, hlen]
        exact hi2
      · next heq2 =>
        right
        have hres := cuckoo_memPair s.B s.maxEvict s.oldCap (makeFp h) (h % s.oldCap)
          (altIndex (h % s.oldCap) (makeFp h) s.oldCap) hi1 hi2 rfl halt2
          (cuckoo s.B s.maxEvict s.old (h % s.oldCap) (makeFp h) rs).tab
          (altIndex (h % s.oldCap) (makeFp h) s.oldCap) (makeFp h)
          (cuckoo s.B s.maxEvict s.old (h % s.oldCap) (makeFp h) rs).rest
          (by rw [cuckoo_length, hlen]) (Or.inr ⟨rfl, Or.inr rfl⟩)
        rcases hres with hm | hm | hm
        · exact hm
        · rw [cuckoo_ok_drops _ _ _ _ _ _ hok2] at hm
          cases hm
        · rw [hok2] at hm
          cases hm.1
    · split
      · next t2 heq2 =>
        right
        refine Or.inr (tryPut_mem_new _ _ _ _ t2 ?_ heq2)
        rw [cuckoo_length, hlen]
        exact hi2
      · next heq2 =>
        left
        rfl

/-- `maybeExpand` keeps the capacity or doubles it. -/
theorem maybeExpand_oldCap (s : BambooFilter) (rs : List Nat) (hwf : WF s) :
    (s.maybeExpand rs).1.oldCap = s.oldCap ∨ (s.maybeExpand rs).1.oldCap = 2 * s.oldCap := by
  simp only [BambooFilter.maybeExpand]
  split_ifs with h1 h2
  · simp only [BambooFilter.migrateSegment]
    split
    · right
      obtain ⟨_, _, _, h4⟩ := hwf
      obtain ⟨_, n2, _⟩ := h4 h1
      simpa using n2
    · left
      rfl
  · left
    rfl
  · simp only [BambooFilter.migrateSegment]
    split
    · right
      simp [BambooFilter.beginExpand, Nat.mul_comm]
    · left
      simp [BambooFilter.beginExpand]

/-- Core of the read-your-write property: a successful insert leaves the
key's fingerprint visible to an immediate query. -/
theorem insert_ok_contains_aux (s : BambooFilter) (h : Nat) (rs : List Nat) (k : Nat)
    (hwf : WF s) (hpow : s.oldCap = 2 ^ k) (hok : (s.insert h rs).1 = true) :
    (s.insert h rs).2.1.contains h = true := by
  by_cases hc : s.contains h = true
  · simpa [BambooFilter.insert, hc] using hc
  · have hc' : s.contains h = false := by
      simpa using hc
    have hins1 : (s.insert h rs).1 = ((s.maybeExpand rs).1.place h (s.maybeExpand rs).2.2.2).1 := by
      simp [BambooFilter.insert, hc']
    have hins2 : (s.insert h rs).2.1 =
        ((s.maybeExpand rs).1.place h (s.maybeExpand rs).2.2.2).2.1 := by
      simp [BambooFilter.insert, hc']
    rw [hins2]
    rw [hins1] at hok
    have hwf1 : WF (s.maybeExpand rs).1 := wf_maybeExpand s rs hwf
    obtain ⟨hl1, hp1, hb1, _⟩ := hwf1
    have hpow1 : ∃ j, (s.maybeExpand rs).1.oldCap = 2 ^ j := by
      rcases maybeExpand_oldCap s rs hwf with he | he
      · exact ⟨k, by rw [he, hpow]⟩
      · exact ⟨k + 1, by rw [he, hpow, Nat.pow_succ, Nat.mul_comm]⟩
    obtain ⟨j, hpowj⟩ := hpow1
    rcases place_mem_spec (s.maybeExpand rs).1 h (s.maybeExpand rs).2.2.2 j hl1 hp1 hpowj
      with hf | hm
    · rw [hok] at hf
      cases hf
    · apply contains_of_memPair
      have hfr := place_frame (s.maybeExpand rs).1 h (s.maybeExpand rs).2.2.2
      rw [hfr.2.1]
      exact hm

/-- C5: whenever `insert` returns ok, a `contains` on the same key
executed immediately afterwards (no intervening operation) returns true.
Assumes a well-formed state with power-of-two capacity — the regime the
specification requires (capacities start as powers of two and only
double). -/
theorem insert_ok_next_contains (s : BambooFilter) (h : Nat) (rs : List Nat) (k : Nat)
    (hwf : WF s) (hpow : s.oldCap = 2 ^ k) (hok : (s.insert h rs).1 = true) :
    (s.insert h rs).2.1.contains h = true :=
  insert_ok_contains_aux s h rs k hwf hpow hok

/-- Witness for `insert_ok_next_contains`: a fresh filter of capacity 4
accepts digest 7 and immediately reports it present. -/
theorem insert_ok_next_contains_witness :
    ((BambooFilter.init 4 2 (mkRat 9 10) 10 2).insert 7 []).1 = true ∧
      ((BambooFilter.init 4 2 (mkRat 9 10) 10 2).insert 7 []).2.1.contains 7 = true :=
  ⟨by decide,
    insert_ok_next_contains (BambooFilter.init 4 2 (mkRat 9 10) 10 2) 7 [] 2
      (by refine ⟨by decide, by decide, by decide, ?_⟩
          intro he
          cases he)
      (by decide) (by decide)⟩

/-- Size bookkeeping of the placement phase: success increments `size_`
by one, failure leaves it unchanged. -/
theorem place_size_spec (s : BambooFilter) (h : Nat) (rs : List Nat) :
    ((s.place h rs).1 = true ∧ (s.place h rs).2.1.size = s.size + 1) ∨
      ((s.place h rs).1 = false ∧ (s.place h rs).2.1.size = s.size) := by
  simp only [BambooFilter.place]
  split
  · exact Or.inl ⟨rfl, rfl⟩
  · split_ifs
    · exact Or.inl ⟨rfl, rfl⟩
    · split
      · exact Or.inl ⟨rfl, rfl⟩
      · exact Or.inl ⟨rfl, rfl⟩
    · split
      · exact Or.inl ⟨rfl, rfl⟩
      · exact Or.inr ⟨rfl, rfl⟩

/-- Size bookkeeping of `insert`: the count grows by at most one, and not
at all on overflow. -/
theorem insert_size_spec (s : BambooFilter) (h : Nat) (rs : List Nat) :
    (s.insert h rs).2.1.size ≤ s.size + 1 ∧
      ((s.insert h rs).1 = false → (s.insert h rs).2.1.size = s.size) := by
  by_cases hc : s.contains h = true
  · constructor
    · simp [BambooFilter.insert, hc]
    · intro _
      simp [BambooFilter.insert, hc]
  · have hc' : s.contains h = false := by simpa using hc
    have hm := maybeExpand_frame s rs
    have hps := place_size_spec (s.maybeExpand rs).1 h (s.maybeExpand rs).2.2.2
    have hins1 : (s.insert h rs).1 = ((s.maybeExpand rs).1.place h (s.maybeExpand rs).2.2.2).1 := by
      simp [BambooFilter.insert, hc']
    have hins2 : (s.insert h rs).2.1 =
        ((s.maybeExpand rs).1.place h (s.maybeExpand rs).2.2.2).2.1 := by
      simp [BambooFilter.insert, hc']
    rcases hps with ⟨hok, hsz⟩ | ⟨hok, hsz⟩
    · constructor
      · rw [hins2, hsz, hm.2.2.2.2]
      · intro hf
        rw [hins1, hok] at hf
        cases hf
    · constructor
      · rw [hins2, hsz, hm.2.2.2.2]
        omega
      · intro _
        rw [hins2, hsz, hm.2.2.2.2]

/-- The placement phase either succeeds, or leaves `size_` unchanged and —
when `maxEvict_ = 0`, so that no eviction chain can swap anything — the
whole state unchanged. -/
theorem place_fail_spec (s : BambooFilter) (h : Nat) (rs : List Nat) :
    (s.place h rs).1 = true ∨
      ((s.place h rs).1 = false ∧ (s.place h rs).2.1.size = s.size ∧
        (s.maxEvict = 0 → (s.place h rs).2.1 = s)) := by
  by_cases hmax : s.maxEvict = 0
  · have hck : ∀ (t' : Table) (idx' : Nat) (rs' : List Nat),
        cuckoo s.B s.maxEvict t' idx' (makeFp h) rs' = ⟨false, t', [], [], rs'⟩ := by
      intro t' idx' rs'
      rw [hmax]
      rfl
    simp only [BambooFilter.place, hck]
    rcases htp1 : tryPut s.old (h % s.oldCap) (makeFp h) s.B with ⟨ok1, t1⟩
    cases ok1 with
    | true => simp [htp1]
    | false =>
      simp only [htp1]
      rcases htp2 : tryPut s.old (altIndex (h % s.oldCap) (makeFp h) s.oldCap) (makeFp h) s.B
        with ⟨ok2, t2⟩
      cases ok2 with
      | true => simp [htp2]
      | false => simp [htp2]
  · simp only [BambooFilter.place]
    split
    · exact Or.inl rfl
    · split_ifs
      · exact Or.inl rfl
      · split
        · exact Or.inl rfl
        · exact Or.inl rfl
      · split
        · exact Or.inl rfl
        · exact Or.inr ⟨rfl, rfl, fun h0 => absurd h0 hmax⟩

/-- `insert` keeps the capacity or doubles it. -/
theorem insert_oldCap_spec (s : BambooFilter) (h : Nat) (rs : List Nat) (hwf : WF s) :
    (s.insert h rs).2.1.oldCap = s.oldCap ∨ (s.insert h rs).2.1.oldCap = 2 * s.oldCap := by
  by_cases hc : s.contains h = true
  · left
    simp [BambooFilter.insert, hc]
  · have hc' : s.contains h = false := by simpa using hc
    have hins2 : (s.insert h rs).2.1 =
        ((s.maybeExpand rs).1.place h (s.maybeExpand rs).2.2.2).2.1 := by
      simp [BambooFilter.insert, hc']
    rw [hins2]
    rw [(place_frame (s.maybeExpand rs).1 h (s.maybeExpand rs).2.2.2).2.1]
    exact maybeExpand_oldCap s rs hwf

/-- C3 amended: when all four placement attempts fail, `insert` returns
the overflow result and `size_` is not incremented; the table contents
are guaranteed unchanged from before the placement attempts only when
`maxEvict_ = 0` — with a positive eviction bound the failed chains may
have relocated or dropped fingerprints (see the counterexample). -/
theorem overflow_insert_spec (s : BambooFilter) (h : Nat) (rs : List Nat)
    (hnd : s.contains h = false)
    (hfail : ((s.maybeExpand rs).1.place h (s.maybeExpand rs).2.2.2).1 = false) :
    (s.insert h rs).1 = false ∧ (s.insert h rs).2.1.size = s.size ∧
      (s.maxEvict = 0 → (s.insert h rs).2.1 = (s.maybeExpand rs).1) := by
  have hins1 : (s.insert h rs).1 = ((s.maybeExpand rs).1.place h (s.maybeExpand rs).2.2.2).1 := by
    simp [BambooFilter.insert, hnd]
  have hins2 : (s.insert h rs).2.1 =
      ((s.maybeExpand rs).1.place h (s.maybeExpand rs).2.2.2).2.1 := by
    simp [BambooFilter.insert, hnd]
  refine ⟨by rw [hins1]; exact hfail, ?_, ?_⟩
  · rcases place_size_spec (s.maybeExpand rs).1 h (s.maybeExpand rs).2.2.2 with ⟨hok, _⟩ | ⟨_, hsz⟩
    · rw [hok] at hfail
      cases hfail
    · rw [hins2, hsz, (maybeExpand_frame s rs).2.2.2.2]
  · intro hmax
    rcases place_fail_spec (s.maybeExpand rs).1 h (s.maybeExpand rs).2.2.2 with hok | ⟨_, _, hid⟩
    · rw [hok] at hfail
      cases hfail
    · rw [hins2]
      exact hid (by rw [(maybeExpand_frame s rs).2.2.1, hmax])

/-- Witness for `overflow_insert_spec`: a full one-bucket filter with
`maxEvict = 0` rejects digest 7 without changing anything. -/
theorem overflow_insert_spec_witness :
    ((((BambooFilter.init 1 1 1 0 1).insert 5 []).2.1.insert 7 []).1 = false ∧
      (((BambooFilter.init 1 1 1 0 1).insert 5 []).2.1.insert 7 []).2.1.size =
        ((BambooFilter.init 1 1 1 0 1).insert 5 []).2.1.size ∧
      (((BambooFilter.init 1 1 1 0 1).insert 5 []).2.1.maxEvict = 0 →
        (((BambooFilter.init 1 1 1 0 1).insert 5 []).2.1.insert 7 []).2.1 =
          (((BambooFilter.init 1 1 1 0 1).insert 5 []).2.1.maybeExpand []).1)) :=
  overflow_insert_spec ((BambooFilter.init 1 1 1 0 1).insert 5 []).2.1 7 []
    (by decide) (by decide)

/-- An insert of an already-contained key returns ok and changes nothing. -/
theorem insert_dedupe (s : BambooFilter) (h : Nat) (rs : List Nat)
    (hc : s.contains h = true) : s.insert h rs = (true, s, ⟨[], [], false⟩, rs) := by
  simp [BambooFilter.insert, hc]

/-- C9 amended: `insert` is idempotent via the dedupe check — when
`contains` is already true the insert returns ok and changes nothing; the
sequence `insert(k); insert(k)` increments `size` by at most one; and
when the first insert succeeds, the double insert leaves the filter
identical to the single insert.  (When the first insert overflows during
a migration, the second call advances the migration, so full
observational identity fails — see the counterexample.) -/
theorem insert_dedupe_idempotent (s : BambooFilter) (h : Nat) (rs rs2 : List Nat) (k : Nat)
    (hwf : WF s) (hpow : s.oldCap = 2 ^ k) :
    (s.contains h = true → s.insert h rs = (true, s, ⟨[], [], false⟩, rs)) ∧
      ((s.insert h rs).2.1.insert h rs2).2.1.size ≤ s.size + 1 ∧
      ((s.insert h rs).1 = true →
        ((s.insert h rs).2.1.insert h rs2).2.1 = (s.insert h rs).2.1) := by
  have hsecond_of_ok : (s.insert h rs).1 = true →
      ((s.insert h rs).2.1.insert h rs2).2.1 = (s.insert h rs).2.1 := by
    intro hok
    have hc1 : (s.insert h rs).2.1.contains h = true :=
      insert_ok_contains_aux s h rs k hwf hpow hok
    rw [insert_dedupe (s.insert h rs).2.1 h rs2 hc1]
  refine ⟨?_, ?_, hsecond_of_ok⟩
  · intro hc
    exact insert_dedupe s h rs hc
  · by_cases hok : (s.insert h rs).1 = true
    · rw [hsecond_of_ok hok]
      exact (insert_size_spec s h rs).1
    · have hok' : (s.insert h rs).1 = false := by simpa using hok
      have h1 : (s.insert h rs).2.1.size = s.size := (insert_size_spec s h rs).2 hok'
      have h2 := (insert_size_spec (s.insert h rs).2.1 h rs2).1
      omega

/-- Witness for `insert_dedupe_idempotent`: double insert of digest 7
into a fresh filter of capacity 4. -/
theorem insert_dedupe_idempotent_witness :
    (((BambooFilter.init 4 2 (mkRat 9 10) 10 2).contains 7 = true →
        (BambooFilter.init 4 2 (mkRat 9 10) 10 2).insert 7 [] =
          (true, BambooFilter.init 4 2 (mkRat 9 10) 10 2, ⟨[], [], false⟩, [])) ∧
      ((((BambooFilter.init 4 2 (mkRat 9 10) 10 2).insert 7 []).2.1.insert 7 []).2.1.size ≤
        (BambooFilter.init 4 2 (mkRat 9 10) 10 2).size + 1) ∧
      (((BambooFilter.init 4 2 (mkRat 9 10) 10 2).insert 7 []).1 = true →
        (((BambooFilter.init 4 2 (mkRat 9 10) 10 2).insert 7 []).2.1.insert 7 []).2.1 =
          ((BambooFilter.init 4 2 (mkRat 9 10) 10 2).insert 7 []).2.1)) :=
  insert_dedupe_idempotent (BambooFilter.init 4 2 (mkRat 9 10) 10 2) 7 [] [] 2
    (by refine ⟨by decide, by decide, by decide, ?_⟩
        intro he
        cases he)
    (by decide)

/-- When the filter is steady, a positive `contains` answer comes from
the old table: the fingerprint is in one of the key's two buckets. -/
theorem memPair_of_contains_steady (s : BambooFilter) (h : Nat)
    (hexp : s.expanding = false) (hc : s.contains h = true) :
    memPair (makeFp h) (h % s.oldCap) (altIndex (h % s.oldCap) (makeFp h) s.oldCap) s.old := by
  simp only [BambooFilter.contains, hexp] at hc
  by_cases hp : (hasFp s.old (h % s.oldCap) (makeFp h) ||
      hasFp s.old (altIndex (h % s.oldCap) (makeFp h) s.oldCap) (makeFp h)) = true
  · rcases Bool.or_eq_true_iff.mp hp with hh | hh
    · exact Or.inl (by simpa [hasFp] using hh)
    · exact Or.inr (by simpa [hasFp] using hh)
  · simp [hp] at hc

/-- A `maybeExpand` that reports no expansion start on a steady filter is
the identity. -/
theorem maybeExpand_not_started (t : BambooFilter) (rs : List Nat)
    (hexp : t.expanding = false) (hst : (t.maybeExpand rs).2.2.1 = false) :
    t.maybeExpand rs = (t, [], false, rs) := by
  simp only [BambooFilter.maybeExpand] at hst ⊢
  split_ifs at hst ⊢ with h1 h2
  · rw [h1] at hexp
    cases hexp
  · rfl

/-- The placement phase preserves the pair invariant of any tracked
fingerprint, unless it records that fingerprint as lost. -/
theorem place_mem_preserve (t : BambooFilter) (h' : Nat) (rs' : List Nat)
    (f j1 j2 : Nat) (hlen : t.old.length = t.oldCap)
    (hj1 : j1 < t.oldCap) (hj2 : j2 < t.oldCap)
    (halt1 : altIndex j1 f t.oldCap = j2) (halt2 : altIndex j2 f t.oldCap = j1)
    (hmem : memPair f j1 j2 t.old) :
    memPair f j1 j2 (t.place h' rs').2.1.old ∨ f ∈ (t.place h' rs').2.2.1 := by
  have hck1 := cuckoo_memPair t.B t.maxEvict t.oldCap f j1 j2 hj1 hj2 halt1 halt2 t.old
    (h' % t.oldCap) (makeFp h') rs' hlen (Or.inl hmem)
  have hmem1 : memPair f j1 j2
      (cuckoo t.B t.maxEvict t.old (h' % t.oldCap) (makeFp h') rs').tab ∨
      f ∈ (cuckoo t.B t.maxEvict t.old (h' % t.oldCap) (makeFp h') rs').drops := by
    rcases hck1 with hm | hm | hm
    · exact Or.inl hm
    · exact Or.inr hm
    · exact Or.inl (by rw [hm.2]; exact hmem)
  have hlen1 : (cuckoo t.B t.maxEvict t.old (h' % t.oldCap) (makeFp h') rs').tab.length =
      t.oldCap := by
    rw [cuckoo_length, hlen]
  simp only [BambooFilter.place]
  split
  · next t1 heq =>
    left
    rcases hmem with hy | hy
    · left
      have h2 := tryPut_mem_preserve f j1 t.old (h' % t.oldCap) (makeFp h') t.B hy
      rw [heq] at h2
      exact h2
    · right
      have h2 := tryPut_mem_preserve f j2 t.old (h' % t.oldCap) (makeFp h') t.B hy
      rw [heq] at h2
      exact h2
  · split_ifs with hok1 hok2
    · rcases hck1 with hm | hm | hm
      · exact Or.inl hm
      · exact Or.inr hm
      · rw [hok1] at hm
        cases hm.1
    · split
      · next t2 heq2 =>
        rcases hmem1 with hm | hm
        · left
          rcases hm with hy | hy
          · left
            have h2 := tryPut_mem_preserve f j1
              (cuckoo t.B t.maxEvict t.old (h' % t.oldCap) (makeFp h') rs').tab
              (altIndex (h' % t.oldCap) (makeFp h') t.oldCap) (makeFp h') t.B hy
            rw [heq2] at h2
            exact h2
          · right
            have h2 := tryPut_mem_preserve f j2
              (cuckoo t.B t.maxEvict t.old (h' % t.oldCap) (makeFp h') rs').tab
              (altIndex (h' % t.oldCap) (makeFp h') t.oldCap) (makeFp h') t.B hy
            rw [heq2] at h2
            exact h2
        · exact Or.inr hm
      · next heq2 =>
        rcases hmem1 with hm | hm
        · have hck2 := cuckoo_memPair t.B t.maxEvict t.oldCap f j1 j2 hj1 hj2 halt1 halt2
            (cuckoo t.B t.maxEvict t.old (h' % t.oldCap) (makeFp h') rs').tab
            (altIndex (h' % t.oldCap) (makeFp h') t.oldCap) (makeFp h')
            (cuckoo t.B t.maxEvict t.old (h' % t.oldCap) (makeFp h') rs').rest
            hlen1 (Or.inl hm)
          rcases hck2 with hm2 | hm2 | hm2
          · exact Or.inl hm2
          · exact Or.inr (List.mem_append_right _ hm2)
          · rw [hok2] at hm2
            cases hm2.1
        · exact Or.inr (List.mem_append_left _ hm)
    · split
      · next t2 heq2 =>
        rcases hmem1 with hm | hm
        · left
          rcases hm with hy | hy
          · left
            have h2 := tryPut_mem_preserve f j1
              (cuckoo t.B t.maxEvict t.old (h' % t.oldCap) (makeFp h') rs').tab
              (altIndex (h' % t.oldCap) (makeFp h') t.oldCap) (makeFp h') t.B hy
            rw [heq2] at h2
            exact h2
          · right
            have h2 := tryPut_mem_preserve f j2
              (cuckoo t.B t.maxEvict t.old (h' % t.oldCap) (makeFp h') rs').tab
              (altIndex (h' % t.oldCap) (makeFp h') t.oldCap) (makeFp h') t.B hy
            rw [heq2] at h2
            exact h2
        · exact Or.inr hm
      · next heq2 =>
        rcases hmem1 with hm | hm
        · have hck2 := cuckoo_memPair t.B t.maxEvict t.oldCap f j1 j2 hj1 hj2 halt1 halt2
            (cuckoo t.B t.maxEvict t.old (h' % t.oldCap) (makeFp h') rs').tab
            (altIndex (h' % t.oldCap) (makeFp h') t.oldCap) (makeFp h')
            (cuckoo t.B t.maxEvict t.old (h' % t.oldCap) (makeFp h') rs').rest
            hlen1 (Or.inl hm)
          rcases hck2 with hm2 | hm2 | hm2
          · exact Or.inl hm2
          · exact Or.inr (List.mem_append_right _ hm2)
          · exact Or.inl (by rw [hm2.2]; exact hm)
        · exact Or.inr (List.mem_append_left _ hm)

/-- One steady insert (no expansion activity, tracked fingerprint not
lost) preserves the pair invariant, the capacity and steadiness. -/
theorem steady_step_preserve (t : BambooFilter) (h' : Nat) (rs' : List Nat)
    (f j1 j2 : Nat) (hwf : WF t)
    (hj1 : j1 < t.oldCap) (hj2 : j2 < t.oldCap)
    (halt1 : altIndex j1 f t.oldCap = j2) (halt2 : altIndex j2 f t.oldCap = j1)
    (hmem : memPair f j1 j2 t.old)
    (hexp : t.expanding = false)
    (hst : (t.insert h' rs').2.2.1.started = false)
    (hnd : f ∉ (t.insert h' rs').2.2.1.drops) :
    memPair f j1 j2 (t.insert h' rs').2.1.old ∧
      (t.insert h' rs').2.1.oldCap = t.oldCap ∧
      (t.insert h' rs').2.1.expanding = false := by
  by_cases hc : t.contains h' = true
  · rw [insert_dedupe t h' rs' hc]
    exact ⟨hmem, rfl, hexp⟩
  · have hc' : t.contains h' = false := by simpa using hc
    have hstarted : (t.insert h' rs').2.2.1.started = (t.maybeExpand rs').2.2.1 := by
      simp [BambooFilter.insert, hc']
    have hstm : (t.maybeExpand rs').2.2.1 = false := by
      rw [← hstarted]
      exact hst
    have hme := maybeExpand_not_started t rs' hexp hstm
    have hins2 : (t.insert h' rs').2.1 =
        ((t.maybeExpand rs').1.place h' (t.maybeExpand rs').2.2.2).2.1 := by
      simp [BambooFilter.insert, hc']
    have hdrops : (t.insert h' rs').2.2.1.drops =
        (t.maybeExpand rs').2.1 ++
          ((t.maybeExpand rs').1.place h' (t.maybeExpand rs').2.2.2).2.2.1 := by
      simp [BambooFilter.insert, hc']
    rw [hme] at hins2 hdrops
    dsimp only at hins2 hdrops
    rw [hdrops] at hnd
    simp only [List.nil_append] at hnd
    rcases place_mem_preserve t h' rs' f j1 j2 hwf.1 hj1 hj2 halt1 halt2 hmem with hm | hm
    · refine ⟨by rw [hins2]; exact hm, ?_, ?_⟩
      · rw [hins2, (place_frame t h' rs').2.1]
      · rw [hins2, (place_frame t h' rs').2.2.2.2.2.2.2.1, hexp]
    · exact absurd hm hnd

/-- Running a steady trace preserves the pair invariant and capacity. -/
theorem steady_run_preserve (f j1 j2 : Nat) (ops : List (Nat × List Nat))
    (t : BambooFilter) (hwf : WF t)
    (hj1 : j1 < t.oldCap) (hj2 : j2 < t.oldCap)
    (halt1 : altIndex j1 f t.oldCap = j2) (halt2 : altIndex j2 f t.oldCap = j1)
    (hmem : memPair f j1 j2 t.old)
    (htr : steadyOkFrom f t ops = true) :
    memPair f j1 j2 (runSteps t ops).old ∧ (runSteps t ops).oldCap = t.oldCap := by
  induction ops generalizing t with
  | nil => exact ⟨hmem, rfl⟩
  | cons op rest ih =>
    obtain ⟨h', rs'⟩ := op
    simp only [steadyOkFrom, Bool.and_eq_true, Bool.not_eq_true'] at htr
    obtain ⟨⟨⟨hexp, hst⟩, hnd⟩, htr'⟩ := htr
    have hnd' : f ∉ (t.insert h' rs').2.2.1.drops := by
      intro hin
      simp [hin] at hnd
    have hstep := steady_step_preserve t h' rs' f j1 j2 hwf hj1 hj2 halt1 halt2 hmem hexp hst hnd'
    have hwf' := wf_insert t h' rs' hwf
    have hcap := hstep.2.1
    have hres := ih (t.insert h' rs').2.1 hwf' (by rw [hcap]; exact hj1)
      (by rw [hcap]; exact hj2) (by rw [hcap]; exact halt1) (by rw [hcap]; exact halt2)
      hstep.1 htr'
    simp only [runSteps]
    exact ⟨hres.1, by rw [hres.2, hcap]⟩

/-- C1 amended: a key whose insert returned ok, whose fingerprint is
never recorded as lost, and around which no expansion is ever begun or in
progress (steady state at the insert and through every later insert),
answers `contains = true` at every later point; the capacity is a power
of two, as the specification requires. -/
theorem steady_no_false_negative (s : BambooFilter) (h : Nat) (rs : List Nat)
    (ops : List (Nat × List Nat)) (k : Nat)
    (hwf : WF s) (hpow : s.oldCap = 2 ^ k)
    (hok : (s.insert h rs).1 = true)
    (hexp0 : s.expanding = false)
    (hst0 : (s.insert h rs).2.2.1.started = false)
    (hnd0 : (s.insert h rs).2.2.1.drops.contains (makeFp h) = false)
    (htr : steadyOkFrom (makeFp h) (s.insert h rs).2.1 ops = true) :
    (runSteps (s.insert h rs).2.1 ops).contains h = true := by
  have hlen := hwf.1
  have hpos := hwf.2.1
  have hi1 : h % s.oldCap < s.oldCap := Nat.mod_lt _ hpos
  have hi2 : altIndex (h % s.oldCap) (makeFp h) s.oldCap < s.oldCap := altIndex_lt _ _ _ hpos
  have halt2 := altIndex_invol s.oldCap (h % s.oldCap) (makeFp h) k hpow hi1
  have hkey : memPair (makeFp h) (h % s.oldCap)
      (altIndex (h % s.oldCap) (makeFp h) s.oldCap) (s.insert h rs).2.1.old ∧
      (s.insert h rs).2.1.oldCap = s.oldCap ∧ (s.insert h rs).2.1.expanding = false := by
    by_cases hc : s.contains h = true
    · rw [insert_dedupe s h rs hc]
      exact ⟨memPair_of_contains_steady s h hexp0 hc, rfl, hexp0⟩
    · have hc' : s.contains h = false := by simpa using hc
      have hstarted : (s.insert h rs).2.2.1.started = (s.maybeExpand rs).2.2.1 := by
        simp [BambooFilter.insert, hc']
      have hstm : (s.maybeExpand rs).2.2.1 = false := by
        rw [← hstarted]
        exact hst0
      have hme := maybeExpand_not_started s rs hexp0 hstm
      have hins1 : (s.insert h rs).1 =
          ((s.maybeExpand rs).1.place h (s.maybeExpand rs).2.2.2).1 := by
        simp [BambooFilter.insert, hc']
      have hins2 : (s.insert h rs).2.1 =
          ((s.maybeExpand rs).1.place h (s.maybeExpand rs).2.2.2).2.1 := by
        simp [BambooFilter.insert, hc']
      rw [hme] at hins1 hins2
      dsimp only at hins1 hins2
      rw [hins1] at hok
      rcases place_mem_spec s h rs k hlen hpos hpow with hf | hm
      · rw [hok] at hf
        cases hf
      · exact ⟨by rw [hins2]; exact hm, by rw [hins2, (place_frame s h rs).2.1],
          by rw [hins2, (place_frame s h rs).2.2.2.2.2.2.2.1, hexp0]⟩
  obtain ⟨hmem1, hcap1, _⟩ := hkey
  have hwf1 := wf_insert s h rs hwf
  have hrun := steady_run_preserve (makeFp h) (h % s.oldCap)
    (altIndex (h % s.oldCap) (makeFp h) s.oldCap) ops (s.insert h rs).2.1 hwf1
    (by rw [hcap1]; exact hi1) (by rw [hcap1]; exact hi2) (by rw [hcap1])
    (by rw [hcap1]; exact halt2) hmem1 htr
  apply contains_of_memPair
  have hcap2 : (runSteps (s.insert h rs).2.1 ops).oldCap = s.oldCap := by
    rw [hrun.2, hcap1]
  rw [hcap2]
  exact hrun.1

/-- Witness for `steady_no_false_negative`: digest 9 inserted into a
fresh capacity-4 filter stays visible across a later steady insert. -/
theorem steady_no_false_negative_witness :
    (((BambooFilter.init 4 1 (mkRat 9 10) 0 1).insert 9 []).1 = true ∧
      steadyOkFrom (makeFp 9) ((BambooFilter.init 4 1 (mkRat 9 10) 0 1).insert 9 []).2.1
        [(1, [])] = true) ∧
      (runSteps ((BambooFilter.init 4 1 (mkRat 9 10) 0 1).insert 9 []).2.1
        [(1, [])]).contains 9 = true :=
  ⟨⟨by decide, by decide⟩,
    steady_no_false_negative (BambooFilter.init 4 1 (mkRat 9 10) 0 1) 9 [] [(1, [])] 2
      (by refine ⟨by decide, by decide, by decide, ?_⟩
          intro he
          cases he)
      (by decide) (by decide) (by decide) (by decide) (by decide) (by decide)⟩

/-- The placement phase keeps a fingerprint in its bucket unless the
fingerprint appears among the phase's eviction victims. -/
theorem place_mem_fixed (t : BambooFilter) (h' : Nat) (rs' : List Nat) (f y : Nat)
    (hy : f ∈ t.old.getD y []) :
    f ∈ (t.place h' rs').2.1.old.getD y [] ∨ f ∈ (t.place h' rs').2.2.2.1 := by
  simp only [BambooFilter.place]
  split
  · next t1 heq =>
    left
    have h2 := tryPut_mem_preserve f y t.old (h' % t.oldCap) (makeFp h') t.B hy
    rw [heq] at h2
    exact h2
  · split_ifs with hok1 hok2
    · rcases cuckoo_mem_fixed t.B t.maxEvict t.old (h' % t.oldCap) (makeFp h') rs' f y hy
        with hm | hm
      · exact Or.inl hm
      · exact Or.inr hm
    · rcases cuckoo_mem_fixed t.B t.maxEvict t.old (h' % t.oldCap) (makeFp h') rs' f y hy
        with hm | hm
      · split
        · next t2 heq2 =>
          left
          have h2 := tryPut_mem_preserve f y
            (cuckoo t.B t.maxEvict t.old (h' % t.oldCap) (makeFp h') rs').tab
            (altIndex (h' % t.oldCap) (makeFp h') t.oldCap) (makeFp h') t.B hm
          rw [heq2] at h2
          exact h2
        · next heq2 =>
          rcases cuckoo_mem_fixed t.B t.maxEvict
            (cuckoo t.B t.maxEvict t.old (h' % t.oldCap) (makeFp h') rs').tab
            (altIndex (h' % t.oldCap) (makeFp h') t.oldCap) (makeFp h')
            (cuckoo t.B t.maxEvict t.old (h' % t.oldCap) (makeFp h') rs').rest f y hm
            with hm2 | hm2
          · exact Or.inl hm2
          · exact Or.inr (List.mem_append_right _ hm2)
      · split
        · next t2 heq2 => exact Or.inr hm
        · next heq2 => exact Or.inr (List.mem_append_left _ hm)
    · rcases cuckoo_mem_fixed t.B t.maxEvict t.old (h' % t.oldCap) (makeFp h') rs' f y hy
        with hm | hm
      · split
        · next t2 heq2 =>
          left
          have h2 := tryPut_mem_preserve f y
            (cuckoo t.B t.maxEvict t.old (h' % t.oldCap) (makeFp h') rs').tab
            (altIndex (h' % t.oldCap) (makeFp h') t.oldCap) (makeFp h') t.B hm
          rw [heq2] at h2
          exact h2
        · next heq2 =>
          rcases cuckoo_mem_fixed t.B t.maxEvict
            (cuckoo t.B t.maxEvict t.old (h' % t.oldCap) (makeFp h') rs').tab
            (altIndex (h' % t.oldCap) (makeFp h') t.oldCap) (makeFp h')
            (cuckoo t.B t.maxEvict t.old (h' % t.oldCap) (makeFp h') rs').rest f y hm
            with hm2 | hm2
          · exact Or.inl hm2
          · exact Or.inr (List.mem_append_right _ hm2)
      · split
        · next t2 heq2 => exact Or.inr hm
        · next heq2 => exact Or.inr (List.mem_append_left _ hm)

/-- One migration relocation preserves the new-table pair invariant of a
tracked fingerprint, and establishes it when the relocated fingerprint is
the tracked one coming from its primary bucket; otherwise the fingerprint
is recorded as lost. -/
theorem drainFp_mem (Bp maxE newCap : Nat) (t : Table) (b fp : Nat) (rs : List Nat)
    (f i1 : Nat) (hLen : t.length = newCap)
    (hi1 : i1 < newCap) (hi2 : altIndex i1 f newCap < newCap)
    (halt2 : altIndex (altIndex i1 f newCap) f newCap = i1)
    (hstart : memPair f i1 (altIndex i1 f newCap) t ∨ (fp = f ∧ b % newCap = i1)) :
    memPair f i1 (altIndex i1 f newCap) (drainFp Bp maxE newCap t b fp rs).1 ∨
      f ∈ (drainFp Bp maxE newCap t b fp rs).2.1 := by
  have hstart1 : memPair f i1 (altIndex i1 f newCap) t ∨
      (fp = f ∧ (b % newCap = i1 ∨ b % newCap = altIndex i1 f newCap)) := by
    rcases hstart with hm | ⟨hfp, hb⟩
    · exact Or.inl hm
    · exact Or.inr ⟨hfp, Or.inl hb⟩
  have hr1 := cuckoo_memPair Bp maxE newCap f i1 (altIndex i1 f newCap) hi1 hi2 rfl halt2
    t (b % newCap) fp rs hLen hstart1
  have hLen1 : (cuckoo Bp maxE t (b % newCap) fp rs).tab.length = newCap := by
    rw [cuckoo_length, hLen]
  simp only [drainFp]
  split
  · next t1 heq =>
    left
    rcases hstart with hm | ⟨hfp, hb⟩
    · rcases hm with hy | hy
      · left
        have h2 := tryPut_mem_preserve f i1 t (b % newCap) fp Bp hy
        rw [heq] at h2
        exact h2
      · right
        have h2 := tryPut_mem_preserve f (altIndex i1 f newCap) t (b % newCap) fp Bp hy
        rw [heq] at h2
        exact h2
    · left
      have hblt : b % newCap < t.length := by
        rw [hLen, hb]
        exact hi1
      have h2 := tryPut_mem_new t (b % newCap) fp Bp t1 hblt heq
      rw [hfp, hb] at h2
      exact h2
  · next heq0 =>
    split_ifs with hok1 hok2
    · rcases hr1 with hm | hm | hm
      · exact Or.inl hm
      · exact Or.inr hm
      · rw [hok1] at hm
        cases hm.1
    · rcases hr1 with hm | hm | hm
      · have hr2 := cuckoo_memPair Bp maxE newCap f i1 (altIndex i1 f newCap) hi1 hi2 rfl halt2
          (cuckoo Bp maxE t (b % newCap) fp rs).tab
          (altIndex (b % newCap) fp newCap) fp
          (cuckoo Bp maxE t (b % newCap) fp rs).rest hLen1 (Or.inl hm)
        rcases hr2 with hm2 | hm2 | hm2
        · exact Or.inl hm2
        · exact Or.inr (List.mem_append_right _ hm2)
        · rw [hok2] at hm2
          cases hm2.1
      · exact Or.inr (List.mem_append_left _ hm)
      · have hstart3 : memPair f i1 (altIndex i1 f newCap)
            (cuckoo Bp maxE t (b % newCap) fp rs).tab ∨
            (fp = f ∧ (altIndex (b % newCap) fp newCap = i1 ∨
              altIndex (b % newCap) fp newCap = altIndex i1 f newCap)) := by
          rcases hstart with hmm | ⟨hfp, hb⟩
          · exact Or.inl (by rw [hm.2]; exact hmm)
          · exact Or.inr ⟨hfp, Or.inr (by rw [hfp, hb])⟩
        have hr2 := cuckoo_memPair Bp maxE newCap f i1 (altIndex i1 f newCap) hi1 hi2 rfl halt2
          (cuckoo Bp maxE t (b % newCap) fp rs).tab
          (altIndex (b % newCap) fp newCap) fp
          (cuckoo Bp maxE t (b % newCap) fp rs).rest hLen1 hstart3
        rcases hr2 with hm2 | hm2 | hm2
        · exact Or.inl hm2
        · exact Or.inr (List.mem_append_right _ hm2)
        · rw [hok2] at hm2
          cases hm2.1
    · rcases hr1 with hm | hm | hm
      · have hr2 := cuckoo_memPair Bp maxE newCap f i1 (altIndex i1 f newCap) hi1 hi2 rfl halt2
          (cuckoo Bp maxE t (b % newCap) fp rs).tab
          (altIndex (b % newCap) fp newCap) fp
          (cuckoo Bp maxE t (b % newCap) fp rs).rest hLen1 (Or.inl hm)
        rcases hr2 with hm2 | hm2 | hm2
        · exact Or.inl hm2
        · exact Or.inr (List.mem_append_left _ (List.mem_append_right _ hm2))
        · exact Or.inl (by rw [hm2.2]; exact hm)
      · exact Or.inr (List.mem_append_left _ (List.mem_append_left _ hm))
      · rcases hstart with hmm | ⟨hfp, hb⟩
        · have hstart3 : memPair f i1 (altIndex i1 f newCap)
              (cuckoo Bp maxE t (b % newCap) fp rs).tab := by
            rw [hm.2]
            exact hmm
          have hr2 := cuckoo_memPair Bp maxE newCap f i1 (altIndex i1 f newCap) hi1 hi2 rfl
            halt2 (cuckoo Bp maxE t (b % newCap) fp rs).tab
            (altIndex (b % newCap) fp newCap) fp
            (cuckoo Bp maxE t (b % newCap) fp rs).rest hLen1 (Or.inl hstart3)
          rcases hr2 with hm2 | hm2 | hm2
          · exact Or.inl hm2
          · exact Or.inr (List.mem_append_left _ (List.mem_append_right _ hm2))
          · exact Or.inl (by rw [hm2.2]; exact hstart3)
        · have hstart3 : memPair f i1 (altIndex i1 f newCap)
              (cuckoo Bp maxE t (b % newCap) fp rs).tab ∨
              (fp = f ∧ (altIndex (b % newCap) fp newCap = i1 ∨
                altIndex (b % newCap) fp newCap = altIndex i1 f newCap)) :=
            Or.inr ⟨hfp, Or.inr (by rw [hfp, hb])⟩
          have hr2 := cuckoo_memPair Bp maxE newCap f i1 (altIndex i1 f newCap) hi1 hi2 rfl
            halt2 (cuckoo Bp maxE t (b % newCap) fp rs).tab
            (altIndex (b % newCap) fp newCap) fp
            (cuckoo Bp maxE t (b % newCap) fp rs).rest hLen1 hstart3
          rcases hr2 with hm2 | hm2 | hm2
          · exact Or.inl hm2
          · exact Or.inr (List.mem_append_left _ (List.mem_append_right _ hm2))
          · refine Or.inr (List.mem_append_right _ ?_)
            rw [hfp]
            exact List.mem_singleton_self f

/-- Draining a bucket's fingerprint list: the tracked fingerprint ends in
one of its two new-table buckets if it was already there or if it is one
of the drained fingerprints of its primary bucket — unless it is recorded
as lost. -/
theorem drainFps_mem (Bp maxE newCap b : Nat) (fps : List Nat) (t : Table) (rs : List Nat)
    (f i1 : Nat) (hLen : t.length = newCap)
    (hi1 : i1 < newCap) (hi2 : altIndex i1 f newCap < newCap)
    (halt2 : altIndex (altIndex i1 f newCap) f newCap = i1)
    (hstart : memPair f i1 (altIndex i1 f newCap) t ∨ (f ∈ fps ∧ b % newCap = i1)) :
    memPair f i1 (altIndex i1 f newCap) (drainFps Bp maxE newCap b fps t rs).1 ∨
      f ∈ (drainFps Bp maxE newCap b fps t rs).2.1 := by
  induction fps generalizing t rs with
  | nil =>
    rcases hstart with hm | ⟨hmem, _⟩
    · exact Or.inl hm
    · exact absurd hmem (List.not_mem_nil f)
  | cons g gs ih =>
    simp only [drainFps]
    have hLen1 : (drainFp Bp maxE newCap t b g rs).1.length = newCap := by
      rw [drainFp_length, hLen]
    have hstep : memPair f i1 (altIndex i1 f newCap) (drainFp Bp maxE newCap t b g rs).1 ∨
        f ∈ (drainFp Bp maxE newCap t b g rs).2.1 ∨ (f ∈ gs ∧ b % newCap = i1) := by
      rcases hstart with hm | ⟨hmem, hb⟩
      · rcases drainFp_mem Bp maxE newCap t b g rs f i1 hLen hi1 hi2 halt2 (Or.inl hm)
          with hd | hd
        · exact Or.inl hd
        · exact Or.inr (Or.inl hd)
      · rcases List.mem_cons.mp hmem with hg | hgs
        · rcases drainFp_mem Bp maxE newCap t b g rs f i1 hLen hi1 hi2 halt2
            (Or.inr ⟨hg.symm, hb⟩) with hd | hd
          · exact Or.inl hd
          · exact Or.inr (Or.inl hd)
        · exact Or.inr (Or.inr ⟨hgs, hb⟩)
    rcases hstep with hm | hm | hm
    · rcases ih (drainFp Bp maxE newCap t b g rs).1 (drainFp Bp maxE newCap t b g rs).2.2 hLen1
        (Or.inl hm) with hres | hres
      · exact Or.inl hres
      · exact Or.inr (List.mem_append_right _ hres)
    · exact Or.inr (List.mem_append_left _ hm)
    · rcases ih (drainFp Bp maxE newCap t b g rs).1 (drainFp Bp maxE newCap t b g rs).2.2 hLen1
        (Or.inr hm) with hres | hres
      · exact Or.inl hres
      · exact Or.inr (List.mem_append_right _ hres)

/-- Draining a range of old buckets preserves the two-sided invariant:
the tracked fingerprint stays in the old primary bucket or moves into one
of its two new-table buckets, unless it is recorded as lost. -/
theorem drainRange_mem (Bp maxE newCap : Nat) (n c : Nat) (oldT newT : Table) (rs : List Nat)
    (f i1 : Nat) (hLen : newT.length = newCap)
    (hi1 : i1 < newCap) (hi2 : altIndex i1 f newCap < newCap)
    (halt2 : altIndex (altIndex i1 f newCap) f newCap = i1)
    (hInv : f ∈ oldT.getD i1 [] ∨ memPair f i1 (altIndex i1 f newCap) newT) :
    (f ∈ (drainRange Bp maxE newCap n c oldT newT rs).1.getD i1 [] ∨
      memPair f i1 (altIndex i1 f newCap) (drainRange Bp maxE newCap n c oldT newT rs).2.1) ∨
      f ∈ (drainRange Bp maxE newCap n c oldT newT rs).2.2.1 := by
  induction n generalizing c oldT newT rs with
  | zero => exact Or.inl hInv
  | succ m ih =>
    simp only [drainRange]
    have hLen1 : (drainFps Bp maxE newCap c (oldT.getD c []) newT rs).1.length = newCap := by
      rw [drainFps_length, hLen]
    rcases hInv with hold | hnew
    · by_cases hc : c = i1
      · subst hc
        rcases drainFps_mem Bp maxE newCap c (oldT.getD c []) newT rs f c hLen hi1 hi2 halt2
          (Or.inr ⟨hold, Nat.mod_eq_of_lt hi1⟩) with hm | hm
        · rcases ih (c + 1) (oldT.set c []) _ _ hLen1 (Or.inr hm) with hres | hres
          · exact Or.inl hres
          · exact Or.inr (List.mem_append_right _ hres)
        · exact Or.inr (List.mem_append_left _ hm)
      · have hold' : f ∈ (oldT.set c []).getD i1 [] := by
          rw [getD_set_ne' _ _ _ _ (fun he => hc he.symm)]
          exact hold
        rcases ih (c + 1) (oldT.set c []) _ _ hLen1 (Or.inl hold') with hres | hres
        · exact Or.inl hres
        · exact Or.inr (List.mem_append_right _ hres)
    · rcases drainFps_mem Bp maxE newCap c (oldT.getD c []) newT rs f i1 hLen hi1 hi2 halt2
        (Or.inl hnew) with hm | hm
      · rcases ih (c + 1) (oldT.set c []) _ _ hLen1 (Or.inr hm) with hres | hres
        · exact Or.inl hres
        · exact Or.inr (List.mem_append_right _ hres)
      · exact Or.inr (List.mem_append_left _ hm)

/-- `migrateSegment` either finalizes the migration (expanding becomes
false) or performs exactly the drain step with the cursor advanced. -/
theorem migrateSegment_spec (t : BambooFilter) (rs : List Nat) :
    (t.migrateSegment rs).1.expanding = false ∨
      ((t.migrateSegment rs).1 =
        { t with
          old := (drainRange t.B t.maxEvict t.newCap
            (min (t.migrateCursor + t.segSz) t.oldCap - t.migrateCursor) t.migrateCursor
            t.old t.newT rs).1,
          newT := (drainRange t.B t.maxEvict t.newCap
            (min (t.migrateCursor + t.segSz) t.oldCap - t.migrateCursor) t.migrateCursor
            t.old t.newT rs).2.1,
          migrateCursor := min (t.migrateCursor + t.segSz) t.oldCap } ∧
        (t.migrateSegment rs).2.1 = (drainRange t.B t.maxEvict t.newCap
          (min (t.migrateCursor + t.segSz) t.oldCap - t.migrateCursor) t.migrateCursor
          t.old t.newT rs).2.2.1) := by
  simp only [BambooFilter.migrateSegment]
  split
  · exact Or.inl rfl
  · exact Or.inr ⟨rfl, rfl⟩

/-- During an expansion, a fingerprint in the key's primary old bucket or
in one of its two new-table buckets is visible to the query. -/
theorem contains_of_inv2 (T : BambooFilter) (h : Nat) (hexp : T.expanding = true)
    (hi1n : h % T.oldCap < T.newCap)
    (hInv : makeFp h ∈ T.old.getD (h % T.oldCap) [] ∨
      memPair (makeFp h) (h % T.oldCap) (altIndex (h % T.oldCap) (makeFp h) T.newCap) T.newT) :
    T.contains h = true := by
  rcases hInv with hold | hnew
  · exact contains_of_memPair T h (Or.inl hold)
  · by_cases hp : (hasFp T.old (h % T.oldCap) (makeFp h) ||
        hasFp T.old (altIndex (h % T.oldCap) (makeFp h) T.oldCap) (makeFp h)) = true
    · simp [BambooFilter.contains, hp]
    · have hp' : (hasFp T.old (h % T.oldCap) (makeFp h) ||
          hasFp T.old (altIndex (h % T.oldCap) (makeFp h) T.oldCap) (makeFp h)) = false := by
        simpa using hp
      simp only [BambooFilter.contains, hp', hexp]
      simp only [Bool.false_eq_true, if_false, if_true, Nat.mod_eq_of_lt hi1n,
        Bool.or_eq_true]
      rcases hnew with hy | hy
      · exact Or.inl (by simpa [hasFp] using hy)
      · exact Or.inr (by simpa [hasFp] using hy)

/-- One insert during a migration that stays in progress preserves the
two-sided invariant of a tracked fingerprint that the step neither loses
nor displaces in the old table. -/
theorem expand_step_preserve (t : BambooFilter) (h' : Nat) (rs' : List Nat)
    (f i1 : Nat) (hwf : WF t)
    (hi1 : i1 < t.newCap) (hi2 : altIndex i1 f t.newCap < t.newCap)
    (halt2 : altIndex (altIndex i1 f t.newCap) f t.newCap = i1)
    (hexp : t.expanding = true)
    (hexp' : (t.insert h' rs').2.1.expanding = true)
    (hnd : f ∉ (t.insert h' rs').2.2.1.drops)
    (hev : f ∉ (t.insert h' rs').2.2.1.evOld)
    (hInv : f ∈ t.old.getD i1 [] ∨ memPair f i1 (altIndex i1 f t.newCap) t.newT) :
    (f ∈ (t.insert h' rs').2.1.old.getD i1 [] ∨
      memPair f i1 (altIndex i1 f t.newCap) (t.insert h' rs').2.1.newT) ∧
      (t.insert h' rs').2.1.oldCap = t.oldCap ∧
      (t.insert h' rs').2.1.newCap = t.newCap := by
  by_cases hc : t.contains h' = true
  · rw [insert_dedupe t h' rs' hc]
    exact ⟨hInv, rfl, rfl⟩
  · have hc' : t.contains h' = false := by simpa using hc
    have hins2 : (t.insert h' rs').2.1 =
        ((t.maybeExpand rs').1.place h' (t.maybeExpand rs').2.2.2).2.1 := by
      simp [BambooFilter.insert, hc']
    have hdrops : (t.insert h' rs').2.2.1.drops =
        (t.maybeExpand rs').2.1 ++
          ((t.maybeExpand rs').1.place h' (t.maybeExpand rs').2.2.2).2.2.1 := by
      simp [BambooFilter.insert, hc']
    have hevs : (t.insert h' rs').2.2.1.evOld =
        ((t.maybeExpand rs').1.place h' (t.maybeExpand rs').2.2.2).2.2.2.1 := by
      simp [BambooFilter.insert, hc']
    have hmexp1 : (t.maybeExpand rs').1 = (t.migrateSegment rs').1 := by
      simp [BambooFilter.maybeExpand, hexp]
    have hmexp2 : (t.maybeExpand rs').2.1 = (t.migrateSegment rs').2.1 := by
      simp [BambooFilter.maybeExpand, hexp]
    have hmigexp : (t.migrateSegment rs').1.expanding = true := by
      rw [hins2] at hexp'
      rw [(place_frame (t.maybeExpand rs').1 h' (t.maybeExpand rs').2.2.2).2.2.2.2.2.2.2.1]
        at hexp'
      rw [hmexp1] at hexp'
      exact hexp'
    rcases migrateSegment_spec t rs' with hfin | ⟨hms1, hms2⟩
    · rw [hmigexp] at hfin
      cases hfin
    · have hnd1 : f ∉ (t.migrateSegment rs').2.1 := by
        intro hin
        apply hnd
        rw [hdrops, hmexp2]
        exact List.mem_append_left _ hin
      have hnd2 : f ∉ ((t.maybeExpand rs').1.place h' (t.maybeExpand rs').2.2.2).2.2.1 := by
        intro hin
        apply hnd
        rw [hdrops]
        exact List.mem_append_right _ hin
      have hev2 : f ∉ ((t.maybeExpand rs').1.place h' (t.maybeExpand rs').2.2.2).2.2.2.1 := by
        intro hin
        apply hev
        rw [hevs]
        exact hin
      have hwx := hwf.2.2.2 hexp
      have hdr := drainRange_mem t.B t.maxEvict t.newCap
        (min (t.migrateCursor + t.segSz) t.oldCap - t.migrateCursor) t.migrateCursor
        t.old t.newT rs' f i1 hwx.1 hi1 hi2 halt2 hInv
      rcases hdr with hdr | hdr
      · have hInvM : f ∈ (t.migrateSegment rs').1.old.getD i1 [] ∨
            memPair f i1 (altIndex i1 f t.newCap) (t.migrateSegment rs').1.newT := by
          rw [hms1]
          exact hdr
        have hfr := place_frame (t.maybeExpand rs').1 h' (t.maybeExpand rs').2.2.2
        refine ⟨?_, ?_, ?_⟩
        · rcases hInvM with hioc | hioc
          · rcases place_mem_fixed (t.maybeExpand rs').1 h' (t.maybeExpand rs').2.2.2 f i1
              (by rw [hmexp1]; exact hioc) with hpm | hpm
            · exact Or.inl (by rw [hins2]; exact hpm)
            · exact absurd hpm hev2
          · right
            rw [hins2, hfr.1, hmexp1]
            exact hioc
        · rw [hins2, hfr.2.1, hmexp1, hms1]
        · rw [hins2, hfr.2.2.1, hmexp1, hms1]
      · exact absurd (by rw [hms2]; exact hdr) hnd1

/-- Running a trace that keeps the migration in progress preserves the
two-sided invariant. -/
theorem expand_run_preserve (f i1 : Nat) (ops : List (Nat × List Nat))
    (t : BambooFilter) (hwf : WF t)
    (hi1 : i1 < t.newCap) (hi2 : altIndex i1 f t.newCap < t.newCap)
    (halt2 : altIndex (altIndex i1 f t.newCap) f t.newCap = i1)
    (hexp : t.expanding = true)
    (hInv : f ∈ t.old.getD i1 [] ∨ memPair f i1 (altIndex i1 f t.newCap) t.newT)
    (htr : expandOkFrom f t ops = true) :
    (f ∈ (runSteps t ops).old.getD i1 [] ∨
      memPair f i1 (altIndex i1 f t.newCap) (runSteps t ops).newT) ∧
      (runSteps t ops).oldCap = t.oldCap ∧ (runSteps t ops).newCap = t.newCap ∧
      (runSteps t ops).expanding = true := by
  induction ops generalizing t with
  | nil => exact ⟨hInv, rfl, rfl, hexp⟩
  | cons op rest ih =>
    obtain ⟨h', rs'⟩ := op
    simp only [expandOkFrom, Bool.and_eq_true, Bool.not_eq_true'] at htr
    obtain ⟨⟨⟨⟨hexp1, hexp2⟩, hnd⟩, hev⟩, htr'⟩ := htr
    have hnd' : f ∉ (t.insert h' rs').2.2.1.drops := by
      intro hin
      simp [hin] at hnd
    have hev' : f ∉ (t.insert h' rs').2.2.1.evOld := by
      intro hin
      simp [hin] at hev
    have hstep := expand_step_preserve t h' rs' f i1 hwf hi1 hi2 halt2 hexp1 hexp2 hnd' hev' hInv
    have hwf' := wf_insert t h' rs' hwf
    have hcapO := hstep.2.1
    have hcapN := hstep.2.2
    have hres := ih (t.insert h' rs').2.1 hwf' (by rw [hcapN]; exact hi1)
      (by rw [hcapN]; exact hi2) (by rw [hcapN]; exact halt2) hexp2
      (by rw [hcapN]; exact hstep.1) htr'
    simp only [runSteps]
    rw [hcapN] at hres
    exact ⟨hres.1, by rw [hres.2.1, hcapO], hres.2.2.1, hres.2.2.2⟩

/-- C2 amended: while the filter is expanding, a key inserted before the
migration started whose fingerprint sits in the key's primary old-table
bucket stays visible through every subsequent insert that keeps the
migration in progress, provided no step drops the fingerprint or
displaces it through an old-table eviction.  Capacity is a power of two,
as the specification requires. -/
theorem migration_window_visibility (s : BambooFilter) (h : Nat)
    (ops : List (Nat × List Nat)) (k : Nat)
    (hwf : WF s) (hpow : s.oldCap = 2 ^ k)
    (hexp : s.expanding = true)
    (hmem : makeFp h ∈ s.old.getD (h % s.oldCap) [])
    (htr : expandOkFrom (makeFp h) s ops = true) :
    (runSteps s ops).contains h = true := by
  have hwx := hwf.2.2.2 hexp
  have hpos := hwf.2.1
  have hi1o : h % s.oldCap < s.oldCap := Nat.mod_lt _ hpos
  have hi1n : h % s.oldCap < s.newCap := by
    rw [hwx.2.1]
    omega
  have hnpow : s.newCap = 2 ^ (k + 1) := by
    rw [hwx.2.1, hpow, Nat.pow_succ, Nat.mul_comm]
  have hi2 : altIndex (h % s.oldCap) (makeFp h) s.newCap < s.newCap :=
    altIndex_lt _ _ _ (by rw [hwx.2.1]; omega)
  have halt2 := altIndex_invol s.newCap (h % s.oldCap) (makeFp h) (k + 1) hnpow hi1n
  have hrun := expand_run_preserve (makeFp h) (h % s.oldCap) ops s hwf hi1n hi2 halt2 hexp
    (Or.inl hmem) htr
  apply contains_of_inv2 (runSteps s ops) h hrun.2.2.2
  · rw [hrun.2.1, hrun.2.2.1]
    exact hi1n
  · rw [hrun.2.1, hrun.2.2.1]
    exact hrun.1

/-- Witness for `migration_window_visibility`: digest 1's fingerprint,
drained from its primary bucket during the expansion of a capacity-4
filter, stays visible across a further insert that advances the
migration. -/
theorem migration_window_visibility_witness :
    ((runSteps (BambooFilter.init 4 1 (mkRat 4 10) 0 1)
        [(1, []), (9, []), (2, [])]).expanding = true ∧
      expandOkFrom (makeFp 1)
        (runSteps (BambooFilter.init 4 1 (mkRat 4 10) 0 1) [(1, []), (9, []), (2, [])])
        [(3, [])] = true) ∧
      (runSteps (runSteps (BambooFilter.init 4 1 (mkRat 4 10) 0 1)
        [(1, []), (9, []), (2, [])]) [(3, [])]).contains 1 = true :=
  ⟨⟨by decide, by decide⟩,
    migration_window_visibility
      (runSteps (BambooFilter.init 4 1 (mkRat 4 10) 0 1) [(1, []), (9, []), (2, [])]) 1
      [(3, [])] 2
      (by refine ⟨by decide, by decide, by decide, ?_⟩
          intro _
          exact ⟨by decide, by decide, by decide⟩)
      (by decide) (by decide) (by decide) (by decide)⟩
